import Mathlib

/-!
Shallow embedding of the adaptive-precision arithmetic-invariant engine of
`snap/ManifoldNT.py` (class `ManifoldNT`): the precision planner
`next_prec_and_degree`, the field resolvers `trace_field` and
`invariant_trace_field`, the quaternion-algebra resolvers with their
epsilon-escalation loop, the denominator analyzer, the arithmeticity
classifier `is_arithmetic`, and the comparators
`_isomorphic_quaternion_algebras`, `_same_denominators`,
`compare_arithmetic_invariants`, `has_same_arithmetic_invariants`.

External collaborators (Sage number fields, `find_field`, `express`,
`special_isomorphism`, quaternion-algebra library calls, word searches) are
modelled as oracle functions carried in structures; the manifold state is a
record mirroring the Python instance attributes; Python dicts keyed by
`PrecDegreeTuple` (resp. by precision) are association lists with
overwrite-on-update semantics; Python sets are `Finset`; external calls are
logged in an event list so that claims about "no resolution is triggered"
are statable.
-/

deriving instance DecidableEq for Except

namespace SnapPyNT

/-! ### Generic fold-based minima / maxima (Python `min` / `max` over lists) -/

def foldMin {α : Type} [LinearOrder α] (x : α) (xs : List α) : α :=
  xs.foldl min x

def foldMax {α : Type} [LinearOrder α] (x : α) (xs : List α) : α :=
  xs.foldl max x

/-- Python `min(lst)` for a list known to be nonempty; the default is
only returned on `[]`, which callers guard against. -/
def headMinD {α : Type} [LinearOrder α] (d : α) : List α → α
  | [] => d
  | x :: xs => foldMin x xs

/-- Python `max(lst)` for a list known to be nonempty; the default is
only returned on `[]`, which callers guard against. -/
def headMaxD {α : Type} [LinearOrder α] (d : α) : List α → α
  | [] => d
  | x :: xs => foldMax x xs

/-! ### Fuel-based base-2 logarithms

`next_prec_and_degree` computes `floor(log(implied_deg / itf_deg, 2))` with
Sage floats; we embed the quantity as the exact floor of the base-2 logarithm
of the rational `num / den`.  The helpers are fuel-structural so that
concrete values reduce by `decide`. -/

def log2floorAux : Nat → Nat → Nat
  | 0, _ => 0
  | fuel + 1, n => if 2 ≤ n then 1 + log2floorAux fuel (n / 2) else 0

/-- `log2floor n = ⌊log₂ n⌋` for `1 ≤ n` (and `0` at `0`). -/
def log2floor (n : Nat) : Nat :=
  log2floorAux n n

def log2BelowAux : Nat → Nat → Nat → Nat
  | 0, _, _ => 0
  | fuel + 1, num, den => if den ≤ num then 0 else 1 + log2BelowAux fuel (2 * num) den

/-- `⌊log₂ (num / den)⌋` as an integer, for positive `num`, `den`;
negative when `num < den`. -/
def floorLog2 (num den : Nat) : Int :=
  if den ≤ num then (log2floor (num / den) : Int)
  else -(log2BelowAux den num den : Int)

/-! ### Data model -/

/-- `PrecDegreeTuple` from the source: degree is an integer because the
cross-invariant degree correction can produce a nonpositive value. -/
structure PrecDegreeTuple where
  prec : Nat
  degree : Int
deriving DecidableEq, Repr

/-- A Sage `NumberField` as the engine sees it: an identity for Python
`==` comparison, the degree, and the signature (real places, complex
place pairs). -/
structure NumberField where
  fid : Nat
  deg : Nat
  sig : Nat × Nat
deriving DecidableEq, Repr

/-- The triple returned by a successful `find_field` call: exact field,
distinguished numerical root (an approximate-algebraic-number token), and
exact images of the generators. -/
structure FieldData where
  field : NumberField
  root : Nat
  gens : List Nat
deriving DecidableEq, Repr

/-- A `QuaternionAlgebraNF` object: the base field, the two Hilbert-symbol
invariants, and the externally computed ramification data (`ramified
real places` as a list of place tokens, residue characteristics as the
multiset underlying the Python `Counter`). -/
structure AlgebraNF where
  fld : NumberField
  inv1 : Int
  inv2 : Int
  ramRealPlaces : List Nat
  ramResChars : Multiset Nat
deriving DecidableEq

/-- An approximate-generator-sequence object (`trace_field_gens()` /
`invariant_trace_field_gens()`): the list of approximate generators (as
tokens) and its `find_field` method. -/
structure ApproxGens where
  gensList : List Nat
  find_field : Nat → Int → Option FieldData

/-- The mutable invariant store of a `ManifoldNT` instance. -/
structure MState where
  traceField : Option NumberField
  traceFieldRoot : Option Nat
  traceFieldGens : Option (List Nat)
  tfRecord : List (PrecDegreeTuple × Bool)
  itField : Option NumberField
  itFieldRoot : Option Nat
  itFieldGens : Option (List Nat)
  itfRecord : List (PrecDegreeTuple × Bool)
  qa : Option AlgebraNF
  qaRecord : List (Nat × Bool)
  iqa : Option AlgebraNF
  iqaRecord : List (Nat × Bool)
  denominators : Option (Finset Nat)
  denomResChars : Option (Finset Nat)
  isModTwoHS : Bool
  approxTFGens : ApproxGens
  approxITFGens : ApproxGens

/-- Python dict update `record[k] = v`: overwrite the binding of `k`
(if any) and keep every other binding. -/
def recUpdate {κ : Type} [DecidableEq κ] (r : List (κ × Bool)) (k : κ) (v : Bool) :
    List (κ × Bool) :=
  r.filter (fun p => p.1 ≠ k) ++ [(k, v)]

/-! ### The precision planner -/

def starting_prec : Nat := 1000
def starting_degree : Int := 20
def prec_increment : Nat := 5000
def degree_increment : Nat := 5

inductive FieldKind | tf | itf
deriving DecidableEq, Repr

inductive AlgKind | qa | iqa
deriving DecidableEq, Repr

def fieldRecord (s : MState) : FieldKind → List (PrecDegreeTuple × Bool)
  | .tf => s.tfRecord
  | .itf => s.itfRecord

def succPrecs (r : List (PrecDegreeTuple × Bool)) : List Nat :=
  (r.filter (fun p => p.2)).map (fun p => p.1.prec)

def succDegrees (r : List (PrecDegreeTuple × Bool)) : List Int :=
  (r.filter (fun p => p.2)).map (fun p => p.1.degree)

def failPrecs (r : List (PrecDegreeTuple × Bool)) : List Nat :=
  (r.filter (fun p => ¬ p.2)).map (fun p => p.1.prec)

def failDegrees (r : List (PrecDegreeTuple × Bool)) : List Int :=
  (r.filter (fun p => ¬ p.2)).map (fun p => p.1.degree)

/-- `next_prec_and_degree` for the two field kinds ("trace field" /
"invariant trace field"), from `ManifoldNT.next_prec_and_degree`. -/
def next_prec_and_degree (s : MState) (k : FieldKind) : PrecDegreeTuple :=
  let record := fieldRecord s k
  if record = [] then ⟨starting_prec, starting_degree⟩
  else if record.any (fun p => p.2) then
    ⟨headMinD 0 (succPrecs record), headMinD 0 (succDegrees record)⟩
  else
    let largestFailedPrec := headMaxD 0 (failPrecs record)
    let largestFailedDegree := headMaxD 0 (failDegrees record)
    let newpair : PrecDegreeTuple :=
      ⟨largestFailedPrec + prec_increment, largestFailedDegree + degree_increment⟩
    match k with
    | .tf =>
        match s.itField with
        | none => newpair
        | some F =>
            if s.isModTwoHS then ⟨newpair.prec, (F.deg : Int)⟩
            else
              ⟨newpair.prec,
               (floorLog2 (newpair.prec * degree_increment) (prec_increment * F.deg) + 1)
                 * (F.deg : Int)⟩
    | .itf =>
        match s.traceField with
        | none => newpair
        | some F => ⟨newpair.prec, (F.deg : Int)⟩

def algRecord (s : MState) : AlgKind → List (Nat × Bool)
  | .qa => s.qaRecord
  | .iqa => s.iqaRecord

def algField : AlgKind → FieldKind
  | .qa => .tf
  | .iqa => .itf

def succAlgPrecs (r : List (Nat × Bool)) : List Nat :=
  (r.filter (fun p => p.2)).map (fun p => p.1)

def failAlgPrecs (r : List (Nat × Bool)) : List Nat :=
  (r.filter (fun p => ¬ p.2)).map (fun p => p.1)

/-- `next_prec_and_degree` for the two quaternion-algebra kinds, which
return a bare precision. -/
def next_prec_alg (s : MState) (k : AlgKind) : Nat :=
  let fieldPrec := (next_prec_and_degree s (algField k)).prec
  let record := algRecord s k
  if record = [] then fieldPrec
  else if record.any (fun p => p.2) then headMinD 0 (succAlgPrecs record)
  else max (headMaxD 0 (failAlgPrecs record) + prec_increment) fieldPrec

/-! ### Field resolvers -/

/-- Log of external-collaborator invocations performed by a call. -/
inductive Event where
  | findFieldTF (prec : Nat) (degree : Int)
  | findFieldITF (prec : Nat) (degree : Int)
  | hilbertWords (power : Nat) (epsilonCoefficient : Nat)
  | denomFactor
deriving DecidableEq, Repr

/-- `ManifoldNT.trace_field(prec, degree)`: cache hit when resolved and no
explicit coordinate is given; otherwise one `find_field` call at the chosen
coordinate, recorded with overwrite semantics, with success data cached and
(when the manifold is not a mod-2-homology sphere and the invariant trace
field is unresolved) propagated into the invariant-trace-field slots. -/
def trace_field (s : MState) (precArg : Option Nat) (degreeArg : Option Int) :
    Option NumberField × MState × List Event :=
  if s.traceField.isSome ∧ precArg = none ∧ degreeArg = none then
    (s.traceField, s, [])
  else
    let prec := precArg.getD (next_prec_and_degree s .tf).prec
    let degree := degreeArg.getD (next_prec_and_degree s .tf).degree
    match s.approxTFGens.find_field prec degree with
    | none =>
        (none, { s with tfRecord := recUpdate s.tfRecord ⟨prec, degree⟩ false },
         [.findFieldTF prec degree])
    | some fd =>
        let s1 := { s with
          traceField := some fd.field
          traceFieldRoot := some fd.root
          traceFieldGens := some fd.gens
          tfRecord := recUpdate s.tfRecord ⟨prec, degree⟩ true }
        let s2 :=
          if s.itField = none ∧ s.isModTwoHS = false then
            { s1 with
              itfRecord := recUpdate s1.itfRecord ⟨prec, degree⟩ true
              itField := some fd.field
              itFieldRoot := some fd.root
              itFieldGens := some fd.gens }
          else s1
        (some fd.field, s2, [.findFieldTF prec degree])

/-- `ManifoldNT.invariant_trace_field(prec, degree)`: like `trace_field`
but without any propagation. -/
def invariant_trace_field (s : MState) (precArg : Option Nat) (degreeArg : Option Int) :
    Option NumberField × MState × List Event :=
  if s.itField.isSome ∧ precArg = none ∧ degreeArg = none then
    (s.itField, s, [])
  else
    let prec := precArg.getD (next_prec_and_degree s .itf).prec
    let degree := degreeArg.getD (next_prec_and_degree s .itf).degree
    match s.approxITFGens.find_field prec degree with
    | none =>
        (none, { s with itfRecord := recUpdate s.itfRecord ⟨prec, degree⟩ false },
         [.findFieldITF prec degree])
    | some fd =>
        (some fd.field,
         { s with
           itField := some fd.field
           itFieldRoot := some fd.root
           itFieldGens := some fd.gens
           itfRecord := recUpdate s.itfRecord ⟨prec, degree⟩ true },
         [.findFieldITF prec degree])

/-! ### Denominator analyzer -/

/-- External collaborators used by `ManifoldNT.denominators`. -/
structure DenomOracles where
  denominator_ideal : Nat → Nat
  factorPrimes : Nat → List Nat
  absolute_norm : Nat → Nat
  find_prime_factors_in_a_set : Finset Nat → Finset Nat

/-- `ManifoldNT.denominators()`: cached set returned as-is (also when it is
the known-empty set); `None` when the trace-field generators are not
resolved; otherwise the union of the prime factors of the generators'
denominator ideals, with residue characteristics cached alongside. -/
def denominators (oc : DenomOracles) (s : MState) :
    Option (Finset Nat) × MState × List Event :=
  if s.denominators.isSome then (s.denominators, s, [])
  else
    match s.traceFieldGens with
    | none => (none, s, [])
    | some gens =>
        let denominatorIdeals := gens.map oc.denominator_ideal
        let primeIdeals : Finset Nat :=
          denominatorIdeals.foldr (fun i acc => acc ∪ (oc.factorPrimes i).toFinset) ∅
        let norms := primeIdeals.image oc.absolute_norm
        (some primeIdeals,
         { s with
           denominators := some primeIdeals
           denomResChars := some (oc.find_prime_factors_in_a_set norms) },
         [.denomFactor])

/-! ### Arithmeticity classifier -/

/-- `ManifoldNT.is_arithmetic()`: `none` (unknown) unless the invariant
trace field, the invariant quaternion algebra and a non-null denominator
set are all present; otherwise the Maclachlan--Reid criterion. -/
def is_arithmetic (s : MState) : Option Bool :=
  match s.itField, s.iqa, s.denominators with
  | some F, some A, some D =>
      some (decide (A.ramRealPlaces.length = F.sig.1 ∧ F.sig.2 = 1 ∧ D = ∅))
  | _, _, _ => none

/-! ### Quaternion-algebra resolvers -/

/-- External collaborators used by the quaternion-algebra resolvers: the
Hilbert-symbol word search, the approximate Hilbert-symbol entries built
from the words, `express` against the field's numerical root, evaluation of
an exact expression at the field generator, and the
`QuaternionAlgebraNF` constructor. -/
structure QAOracles where
  find_hilbert_symbol_words : Nat → Nat → Nat × Nat
  approxEntry1 : Nat → Nat
  approxEntry2 : Nat → Nat → Nat
  express : Nat → Nat → Nat → Option Int
  evalAtGen : Int → NumberField → Int
  mkQA : NumberField → Int → Int → AlgebraNF

/-- The epsilon-escalation `while True` loop of `quaternion_algebra` /
`invariant_quaternion_algebra`: find words at the current epsilon
coefficient, express both approximate Hilbert-symbol entries, and retry
with the coefficient multiplied by 10 whenever either expression equals the
zero element.  The loop is unbounded in the source; `fuel` counts
iterations, and `none` in the second component means the fuel was exhausted
without the loop ever breaking. -/
def qa_symbol_loop (oc : QAOracles) (power root prec : Nat) :
    Nat → Nat → List Event × Option (Option Int × Option Int)
  | 0, _ => ([], none)
  | fuel + 1, epsilonCoefficient =>
      let words := oc.find_hilbert_symbol_words power epsilonCoefficient
      let firstEntry := oc.express root (oc.approxEntry1 words.1) prec
      let secondEntry := oc.express root (oc.approxEntry2 words.1 words.2) prec
      if firstEntry = some 0 ∨ secondEntry = some 0 then
        let rest := qa_symbol_loop oc power root prec fuel (epsilonCoefficient * 10)
        (.hilbertWords power epsilonCoefficient :: rest.1, rest.2)
      else
        ([.hilbertWords power epsilonCoefficient], some (firstEntry, secondEntry))

/-- `ManifoldNT.quaternion_algebra(prec)`: cache hit when resolved with no
explicit precision; otherwise resolve the trace field first if unknown,
returning `None` (not an error) when that fails; then run the
epsilon-escalation loop, record the precision outcome, and construct the
algebra unless `express` returned `None`.  The outer `none` means the
unbounded source loop never terminated within `fuel` iterations. -/
def quaternion_algebra (oc : QAOracles) (s : MState) (precArg : Option Nat)
    (fuel : Nat) : Option (Option AlgebraNF × MState × List Event) :=
  if s.qa.isSome ∧ precArg = none then some (s.qa, s, [])
  else
    let prec := precArg.getD (next_prec_alg s .qa)
    let step1 : Option NumberField × MState × List Event :=
      if s.traceField = none then trace_field s (some prec) none
      else (s.traceField, s, [])
    match step1 with
    | (none, s1, ev1) => some (none, s1, ev1)
    | (some F, s1, ev1) =>
        let root := s1.traceFieldRoot.getD 0
        let loopOut := qa_symbol_loop oc 1 root prec fuel 10
        match loopOut.2 with
        | none => none
        | some (firstEntry, secondEntry) =>
            let s2 := { s1 with
              qaRecord := recUpdate s1.qaRecord prec (firstEntry.isSome && secondEntry.isSome) }
            if firstEntry = none ∨ secondEntry = none then
              some (none, s2, ev1 ++ loopOut.1)
            else
              let A := oc.mkQA F (oc.evalAtGen (firstEntry.getD 0) F)
                (oc.evalAtGen (secondEntry.getD 0) F)
              some (some A, { s2 with qa := some A }, ev1 ++ loopOut.1)

/-- `ManifoldNT.invariant_quaternion_algebra(prec)`: the mirror of
`quaternion_algebra` over the invariant trace field, with `power = 2`. -/
def invariant_quaternion_algebra (oc : QAOracles) (s : MState) (precArg : Option Nat)
    (fuel : Nat) : Option (Option AlgebraNF × MState × List Event) :=
  if s.iqa.isSome ∧ precArg = none then some (s.iqa, s, [])
  else
    let prec := precArg.getD (next_prec_alg s .iqa)
    let step1 : Option NumberField × MState × List Event :=
      if s.itField = none then invariant_trace_field s (some prec) none
      else (s.itField, s, [])
    match step1 with
    | (none, s1, ev1) => some (none, s1, ev1)
    | (some F, s1, ev1) =>
        let root := s1.itFieldRoot.getD 0
        let loopOut := qa_symbol_loop oc 2 root prec fuel 10
        match loopOut.2 with
        | none => none
        | some (firstEntry, secondEntry) =>
            let s2 := { s1 with
              iqaRecord := recUpdate s1.iqaRecord prec (firstEntry.isSome && secondEntry.isSome) }
            if firstEntry = none ∨ secondEntry = none then
              some (none, s2, ev1 ++ loopOut.1)
            else
              let A := oc.mkQA F (oc.evalAtGen (firstEntry.getD 0) F)
                (oc.evalAtGen (secondEntry.getD 0) F)
              some (some A, { s2 with iqa := some A }, ev1 ++ loopOut.1)

/-! ### Comparators -/

def dfltField : NumberField := ⟨0, 0, (0, 0)⟩

def dfltQA : AlgebraNF := ⟨dfltField, 0, 0, [], ∅⟩

/-- Python `max` of two `PrecDegreeTuple`s (lexicographic tuple order, as
used in `_same_denominators`). -/
def pdMax (a b : PrecDegreeTuple) : PrecDegreeTuple :=
  if a.prec < b.prec ∨ (a.prec = b.prec ∧ a.degree < b.degree) then b else a

/-- External collaborators used by the comparators:
`field_isomorphisms.same_subfield_of_CC` (taking possibly-`None` fields, as
`compare_arithmetic_invariants` passes the raw accessor results),
`is_isomorphic` on quaternion algebras and on number fields, `express`
against a numerical root at an integer precision and at a
`PrecDegreeTuple` precision (the tuple is what `_same_denominators`
actually passes), `special_isomorphism`, its action on ideals, and
`new_QA_via_field_isomorphism`. -/
structure CmpOracles where
  same_subfield_of_CC : Option NumberField → Option NumberField → Bool → Bool
  is_isomorphic_qa : AlgebraNF → AlgebraNF → Bool
  is_isomorphic_field : NumberField → NumberField → Bool
  express : Nat → Nat → Nat → Option Int
  expressPD : Nat → Nat → PrecDegreeTuple → Option Int
  special_isomorphism : NumberField → NumberField → List (Option Int) → List (Option Int) → Nat
  isoApplyIdeal : Nat → Nat → Nat
  new_QA_via_field_isomorphism : AlgebraNF → Nat → AlgebraNF

/-- `ManifoldNT._same_denominators(other)`: calls both `trace_field()`
accessors (which attempt resolution when unresolved), raises when either
trace field or either denominator set is still unknown, short-circuits on
differing residue characteristics, compares denominator sets directly when
the trace fields are equal, reports `False` for non-isomorphic fields, and
otherwise transports the other manifold's denominators through the special
isomorphism before comparing. -/
def same_denominators (co : CmpOracles) (dc : DenomOracles) (s other : MState) :
    Except String Bool × MState × MState × List Event :=
  let r1 := trace_field s none none
  let s1 := r1.2.1
  let r2 := trace_field other none none
  let o1 := r2.2.1
  if r1.1 = none ∨ r2.1 = none then
    (.error "Trace field not known.", s1, o1, r1.2.2 ++ r2.2.2)
  else
    let d1 := denominators dc s1
    let s2 := d1.2.1
    if d1.1 = none then
      (.error "Denomiantors not known.", s2, o1, r1.2.2 ++ r2.2.2 ++ d1.2.2)
    else
      let d2 := denominators dc o1
      let o2 := d2.2.1
      let evs := r1.2.2 ++ r2.2.2 ++ d1.2.2 ++ d2.2.2
      if d2.1 = none then
        (.error "Denomiantors not known.", s2, o2, evs)
      else if s2.denomResChars ≠ o2.denomResChars then
        (.ok false, s2, o2, evs)
      else if s2.traceField = o2.traceField then
        (.ok (decide (s2.denominators = o2.denominators)), s2, o2, evs)
      else if co.is_isomorphic_field (s2.traceField.getD dfltField)
          (o2.traceField.getD dfltField) = false then
        (.ok false, s2, o2, evs)
      else
        let prec := pdMax (next_prec_and_degree s2 .tf) (next_prec_and_degree o2 .tf)
        let primitiveElement := s2.traceFieldRoot.getD 0
        let oldPrimElt := o2.traceFieldRoot.getD 0
        let oldAnchor := o2.approxTFGens.gensList.map (fun g => co.expressPD oldPrimElt g prec)
        let newAnchor := o2.approxTFGens.gensList.map
          (fun g => co.expressPD primitiveElement g prec)
        let specialIso := co.special_isomorphism (s2.traceField.getD dfltField)
          (o2.traceField.getD dfltField) oldAnchor newAnchor
        let newDenoms := (o2.denominators.getD ∅).image (co.isoApplyIdeal specialIso)
        (.ok (decide (s2.denominators.getD ∅ = newDenoms)), s2, o2, evs)

/-- `ManifoldNT._isomorphic_quaternion_algebras(other, _invariant_qa)`:
calls the field and algebra accessors on both manifolds (attempting
resolution when unresolved), raises when any of the four is still unknown,
delegates directly to the external isomorphism test when the fields are
equal, returns `False` when the fields are not the same subfield of the
complex numbers even up to conjugation or when the cheap ramification
pre-checks differ, and otherwise transports the other algebra through a
special isomorphism built from anchor expressions.  The up-to-conjugation
fallback calls `other._conjugate_invariants()`, which dereferences the
misspelled attribute `_quaterion_algebra`; that lookup falls through to
the wrapped SnapPy manifold and raises `AttributeError` whenever `other`
has a resolved quaternion algebra, which is always the case on this path,
so the branch is embedded as that error.  The outer `none` means an
epsilon-escalation loop inside an algebra resolution never terminated. -/
def isomorphic_quaternion_algebras (co : CmpOracles) (qocS qocO : QAOracles)
    (s other : MState) (invariantQA : Bool) (fuel : Nat) :
    Option (Except String Bool × MState × MState × List Event) :=
  let rf1 := if invariantQA then invariant_trace_field s none none
             else trace_field s none none
  let s1 := rf1.2.1
  let rf2 := if invariantQA then invariant_trace_field other none none
             else trace_field other none none
  let o1 := rf2.2.1
  match (if invariantQA then invariant_quaternion_algebra qocS s1 none fuel
         else quaternion_algebra qocS s1 none fuel) with
  | none => none
  | some (selfQA, s2, ev3) =>
    match (if invariantQA then invariant_quaternion_algebra qocO o1 none fuel
           else quaternion_algebra qocO o1 none fuel) with
    | none => none
    | some (otherQA, o2, ev4) =>
      let evs := rf1.2.2 ++ rf2.2.2 ++ ev3 ++ ev4
      if rf1.1 = none ∨ rf2.1 = none ∨ selfQA = none ∨ otherQA = none then
        some (.error "Trace fields or quaternion algebras not known.", s2, o2, evs)
      else
        let selfField := rf1.1.getD dfltField
        let otherField := rf2.1.getD dfltField
        let sqa := selfQA.getD dfltQA
        let oqa := otherQA.getD dfltQA
        if selfField = otherField then
          some (.ok (co.is_isomorphic_qa sqa oqa), s2, o2, evs)
        else if co.same_subfield_of_CC (some selfField) (some otherField) true = false then
          some (.ok false, s2, o2, evs)
        else
          let prec := if invariantQA then max (next_prec_alg s2 .iqa) (next_prec_alg o2 .iqa)
                      else max (next_prec_alg s2 .qa) (next_prec_alg o2 .qa)
          if sqa.ramRealPlaces.length ≠ oqa.ramRealPlaces.length then
            some (.ok false, s2, o2, evs)
          else if sqa.ramResChars ≠ oqa.ramResChars then
            some (.ok false, s2, o2, evs)
          else if co.same_subfield_of_CC (some selfField) (some otherField) false = false then
            some (.error "AttributeError: _quaterion_algebra", s2, o2, evs)
          else
            let primitiveElement := (if invariantQA then s2.itFieldRoot
                                     else s2.traceFieldRoot).getD 0
            let oldPrimElt := (if invariantQA then o2.itFieldRoot
                               else o2.traceFieldRoot).getD 0
            let approxGens := if invariantQA then o2.approxITFGens.gensList
                              else o2.approxTFGens.gensList
            let oldAnchor := approxGens.map (fun g => co.express oldPrimElt g prec)
            let newAnchor := approxGens.map (fun g => co.express primitiveElement g prec)
            let specialIso := co.special_isomorphism selfField otherField oldAnchor newAnchor
            let newQA := co.new_QA_via_field_isomorphism oqa specialIso
            some (.ok (co.is_isomorphic_qa sqa newQA), s2, o2, evs)

/-- `ManifoldNT.compare_arithmetic_invariants(other)`: the five-way
comparison dictionary (trace field, invariant trace field, quaternion
algebra, invariant quaternion algebra, denominators), built by calling the
accessors on both manifolds; `RuntimeError`s raised by the two helper
comparisons propagate. -/
def compare_arithmetic_invariants (co : CmpOracles) (dc : DenomOracles)
    (qocS qocO : QAOracles) (s other : MState) (fuel : Nat) :
    Option (Except String (Bool × Bool × Bool × Bool × Bool) × MState × MState × List Event) :=
  let rtf1 := trace_field s none none
  let s1 := rtf1.2.1
  let rtf2 := trace_field other none none
  let o1 := rtf2.2.1
  let tfCmp := co.same_subfield_of_CC rtf1.1 rtf2.1 false
  let ritf1 := invariant_trace_field s1 none none
  let s2 := ritf1.2.1
  let ritf2 := invariant_trace_field o1 none none
  let o2 := ritf2.2.1
  let itfCmp := co.same_subfield_of_CC ritf1.1 ritf2.1 false
  let ev0 := rtf1.2.2 ++ rtf2.2.2 ++ ritf1.2.2 ++ ritf2.2.2
  match isomorphic_quaternion_algebras co qocS qocO s2 o2 false fuel with
  | none => none
  | some (.error e, s3, o3, ev) => some (.error e, s3, o3, ev0 ++ ev)
  | some (.ok qaCmp, s3, o3, ev) =>
    match isomorphic_quaternion_algebras co qocS qocO s3 o3 true fuel with
    | none => none
    | some (.error e, s4, o4, ev2) => some (.error e, s4, o4, ev0 ++ ev ++ ev2)
    | some (.ok iqaCmp, s4, o4, ev2) =>
      match same_denominators co dc s4 o4 with
      | (.error e, s5, o5, ev3) => some (.error e, s5, o5, ev0 ++ ev ++ ev2 ++ ev3)
      | (.ok dCmp, s5, o5, ev3) =>
        some (.ok (tfCmp, itfCmp, qaCmp, iqaCmp, dCmp), s5, o5, ev0 ++ ev ++ ev2 ++ ev3)

/-- `ManifoldNT.has_same_arithmetic_invariants(other)`: `True` iff no
entry of the comparison dictionary is `False`. -/
def has_same_arithmetic_invariants (co : CmpOracles) (dc : DenomOracles)
    (qocS qocO : QAOracles) (s other : MState) (fuel : Nat) :
    Option (Except String Bool × MState × MState × List Event) :=
  match compare_arithmetic_invariants co dc qocS qocO s other fuel with
  | none => none
  | some (.error e, s1, o1, ev) => some (.error e, s1, o1, ev)
  | some (.ok cmp, s1, o1, ev) =>
      some (.ok (cmp.1 && cmp.2.1 && cmp.2.2.1 && cmp.2.2.2.1 && cmp.2.2.2.2), s1, o1, ev)

/-! ### Scenario helpers, spec-modelled definitions, and concrete fixtures -/

/-- Record an attempted coordinate as a failure in the given field kind's
attempt record, exactly as the field resolvers do on a failed
`find_field` call. -/
def recordFieldFailure (s : MState) (k : FieldKind) (pd : PrecDegreeTuple) : MState :=
  match k with
  | .tf => { s with tfRecord := recUpdate s.tfRecord pd false }
  | .itf => { s with itfRecord := recUpdate s.itfRecord pd false }

def ceilLog2Aux : Nat → Nat → Nat → Nat
  | 0, _, _ => 0
  | fuel + 1, num, den => if num ≤ den then 0 else 1 + ceilLog2Aux fuel num (2 * den)

/-- Modelled from the spec: `ceil(log2(num/den))` for `num ≥ den ≥ 1`
(the least `k` with `num ≤ 2^k · den`). -/
def ceilLog2 (num den : Nat) : Nat :=
  ceilLog2Aux num num den

/-- Modelled from the spec: the candidate-degree override claimed for the
non-mod-2 cross-invariant correction,
`ceil(log2(candidate.precision · (degreeIncrement/precisionIncrement) / d2) + 1) · d2`. -/
def spec_candidate_degree (candPrec d2 : Nat) : Int :=
  ((ceilLog2 (candPrec * degree_increment) (prec_increment * d2) : Int) + 1) * (d2 : Int)

/-- The state after a failed trace-field attempt at the planner's
coordinate (what `trace_field()` with no arguments leaves behind when the
external search fails). -/
def tfFailState (s : MState) : MState :=
  { s with tfRecord := (recUpdate s.tfRecord
      ⟨(next_prec_and_degree s .tf).prec, (next_prec_and_degree s .tf).degree⟩ false) }

/-- The state after a failed invariant-trace-field attempt at the
planner's coordinate. -/
def itfFailState (s : MState) : MState :=
  { s with itfRecord := (recUpdate s.itfRecord
      ⟨(next_prec_and_degree s .itf).prec, (next_prec_and_degree s .itf).degree⟩ false) }

/-- The state left behind by `quaternion_algebra()` called on a state with
unresolved trace field and failing field search: the accessor's failed
attempt followed by the quaternion-algebra call's own failed trace-field
attempt at the algebra planner's precision. -/
def qaFieldFailState (s : MState) : MState :=
  { tfFailState s with tfRecord := (recUpdate (tfFailState s).tfRecord
      ⟨next_prec_alg (tfFailState s) .qa,
       (next_prec_and_degree (tfFailState s) .tf).degree⟩ false) }

/-- The two external field-search events performed by
`_isomorphic_quaternion_algebras` on a self manifold with unresolved trace
field and failing search (and a fully resolved other manifold). -/
def isoQAFailEvents (s : MState) : List Event :=
  [.findFieldTF (next_prec_and_degree s .tf).prec
     (next_prec_and_degree s .tf).degree,
   .findFieldTF (next_prec_alg (tfFailState s) .qa)
     (next_prec_and_degree (tfFailState s) .tf).degree]

/-- The four accessor events of `compare_arithmetic_invariants` on a self
manifold with nothing resolved and failing searches (and a fully resolved
other manifold): two failed field attempts from the accessors, then the
two attempts performed inside `_isomorphic_quaternion_algebras`. -/
def compareFailEvents (s : MState) : List Event :=
  [.findFieldTF (next_prec_and_degree s .tf).prec
     (next_prec_and_degree s .tf).degree,
   .findFieldITF (next_prec_and_degree (tfFailState s) .itf).prec
     (next_prec_and_degree (tfFailState s) .itf).degree] ++
  isoQAFailEvents (itfFailState (tfFailState s))

/-- An approximate-generator sequence whose external `find_field` search
fails at every coordinate. -/
def gensFail : ApproxGens :=
  ⟨[3, 4], fun _ _ => none⟩

/-- An approximate-generator sequence whose external `find_field` search
succeeds at every coordinate with a fixed degree-2 field. -/
def gensSucceed : ApproxGens :=
  ⟨[3, 4], fun _ _ => some ⟨⟨7, 2, (0, 1)⟩, 5, [13, 14]⟩⟩

/-- A freshly constructed manifold state: nothing resolved, empty attempt
records, not a mod-2-homology sphere, failing external field searches. -/
def blankFail : MState :=
  { traceField := none
    traceFieldRoot := none
    traceFieldGens := none
    tfRecord := []
    itField := none
    itFieldRoot := none
    itFieldGens := none
    itfRecord := []
    qa := none
    qaRecord := []
    iqa := none
    iqaRecord := []
    denominators := none
    denomResChars := none
    isModTwoHS := false
    approxTFGens := gensFail
    approxITFGens := gensFail }

/-- Oracles for which both expressed Hilbert-symbol entries evaluate to the
zero element at every epsilon coefficient and every precision. -/
def alwaysZeroQAOracles : QAOracles :=
  { find_hilbert_symbol_words := fun _ _ => (0, 0)
    approxEntry1 := fun _ => 0
    approxEntry2 := fun _ _ => 0
    express := fun _ _ _ => some 0
    evalAtGen := fun _ _ => 0
    mkQA := fun F a b => ⟨F, a, b, [], ∅⟩ }

/-- Oracles for which `express` returns `None` (the search could not
express the entry) for every input, so the epsilon loop breaks at once
with two `None` entries and the attempt is recorded as failed. -/
def noneExpressQAOracles : QAOracles :=
  { find_hilbert_symbol_words := fun _ _ => (0, 0)
    approxEntry1 := fun _ => 0
    approxEntry2 := fun _ _ => 0
    express := fun _ _ _ => none
    evalAtGen := fun _ _ => 0
    mkQA := fun F a b => ⟨F, a, b, [], ∅⟩ }

/-- Comparator oracles whose external tests all answer positively and whose
special isomorphism acts as the identity on ideal tokens. -/
def idCmpOracles : CmpOracles :=
  { same_subfield_of_CC := fun _ _ _ => true
    is_isomorphic_qa := fun _ _ => true
    is_isomorphic_field := fun _ _ => true
    express := fun _ _ _ => some 1
    expressPD := fun _ _ _ => some 1
    special_isomorphism := fun _ _ _ _ => 0
    isoApplyIdeal := fun _ i => i
    new_QA_via_field_isomorphism := fun A _ => A }

/-- Denominator oracles with identity tokens and no prime factors. -/
def trivialDenomOracles : DenomOracles :=
  { denominator_ideal := fun g => g
    factorPrimes := fun _ => []
    absolute_norm := fun i => i
    find_prime_factors_in_a_set := fun s => s }

/-- All-failure trace-field history, invariant trace field resolved to a
degree-2 field, mod-2-homology sphere: the cross-invariant correction
pins the candidate degree to 2. -/
def c4State : MState :=
  { blankFail with
    tfRecord := [(⟨1000, 20⟩, false)]
    itField := some ⟨1, 2, (0, 1)⟩
    isModTwoHS := true }

/-- All-failure trace-field history, invariant trace field resolved to a
degree-2 field, not a mod-2-homology sphere: the log-scaling correction
applies. -/
def c6State : MState :=
  { blankFail with
    tfRecord := [(⟨1000, 20⟩, false)]
    itField := some ⟨1, 2, (0, 1)⟩
    isModTwoHS := false }

/-- Blank state whose external field search succeeds, so that a
`trace_field` call resolves and propagates. -/
def c8State : MState :=
  { blankFail with approxTFGens := gensSucceed }

/-- Resolved trace field (field id 1), empty denominator set. -/
def c2Self : MState :=
  { blankFail with
    traceField := some ⟨1, 2, (0, 1)⟩
    traceFieldRoot := some 5
    traceFieldGens := some [3]
    denominators := some ∅
    denomResChars := some ∅ }

/-- Resolved trace field (field id 2, distinct from `c2Self`'s but
isomorphic under `idCmpOracles`), empty denominator set. -/
def c2Other : MState :=
  { blankFail with
    traceField := some ⟨2, 2, (0, 1)⟩
    traceFieldRoot := some 6
    traceFieldGens := some [4]
    denominators := some ∅
    denomResChars := some ∅ }

/-- Invariant quaternion algebra ramified at one real place over a field
of signature (1, 1). -/
def iqa9 : AlgebraNF := ⟨⟨3, 2, (1, 1)⟩, -1, -1, [0], ∅⟩

/-- Same literal trace field as `c2Self`, same empty denominator set. -/
def c2SameField : MState :=
  { blankFail with
    traceField := some ⟨1, 2, (0, 1)⟩
    traceFieldRoot := some 6
    traceFieldGens := some [4]
    denominators := some ∅
    denomResChars := some ∅ }

/-- A manifold with trace field, invariant trace field and both quaternion
algebras resolved (a fully cached comparison partner). -/
def c1Other : MState :=
  { blankFail with
    traceField := some ⟨9, 2, (1, 1)⟩
    traceFieldRoot := some 5
    traceFieldGens := some [3]
    itField := some ⟨9, 2, (1, 1)⟩
    itFieldRoot := some 5
    itFieldGens := some [3]
    qa := some iqa9
    iqa := some iqa9 }

/-- Single failed trace-field attempt, no cross invariant resolved. -/
def c4WitnessState : MState :=
  { blankFail with tfRecord := [(⟨1000, 20⟩, false)] }

/-- Two successful trace-field attempts at (1000, 20) and (500, 30):
the planner's minima come from different attempts. -/
def c5WitnessState : MState :=
  { blankFail with tfRecord := [(⟨1000, 20⟩, true), (⟨500, 30⟩, true)] }

/-- State with the trace field resolved and no quaternion algebra. -/
def resolvedTFState : MState :=
  { blankFail with
    traceField := some ⟨1, 2, (0, 1)⟩
    traceFieldRoot := some 5
    traceFieldGens := some [3] }

/-- State with invariant trace field of signature (1, 1), an invariant
quaternion algebra ramified at exactly one real place, and a known empty
denominator set. -/
def c9State : MState :=
  { blankFail with
    itField := some ⟨3, 2, (1, 1)⟩
    iqa := some iqa9
    denominators := some ∅ }

/-! ### Helper lemmas -/

theorem le_foldMin {α : Type} [LinearOrder α] (x : α) (xs : List α) :
    foldMin x xs ≤ x := by
  induction xs generalizing x with
  | nil => exact le_refl x
  | cons a as ih =>
      have h := ih (min x a)
      exact le_trans h (min_le_left x a)

theorem foldMin_le {α : Type} [LinearOrder α] (x y : α) (xs : List α)
    (h : y ∈ x :: xs) : foldMin x xs ≤ y := by
  induction xs generalizing x with
  | nil =>
      have hx := List.mem_singleton.mp h
      subst hx
      exact le_refl _
  | cons a as ih =>
      rcases List.mem_cons.mp h with h | h
      · subst h
        exact le_trans (le_foldMin (min y a) as) (min_le_left y a)
      · rcases List.mem_cons.mp h with h | h
        · subst h
          exact le_trans (le_foldMin (min x y) as) (min_le_right x y)
        · exact ih (min x a) (List.mem_cons_of_mem _ h)

theorem foldMin_mem {α : Type} [LinearOrder α] (x : α) (xs : List α) :
    foldMin x xs ∈ x :: xs := by
  induction xs generalizing x with
  | nil => exact List.mem_singleton.mpr rfl
  | cons a as ih =>
      have h := ih (min x a)
      rcases List.mem_cons.mp h with h | h
      · rcases min_cases x a with ⟨hmin, _⟩ | ⟨hmin, _⟩
        · exact List.mem_cons.mpr (Or.inl (h.trans hmin))
        · exact List.mem_cons.mpr (Or.inr (List.mem_cons.mpr (Or.inl (h.trans hmin))))
      · exact List.mem_cons.mpr (Or.inr (List.mem_cons.mpr (Or.inr h)))

theorem foldMax_ge {α : Type} [LinearOrder α] (x : α) (xs : List α) :
    x ≤ foldMax x xs := by
  induction xs generalizing x with
  | nil => exact le_refl x
  | cons a as ih =>
      have h := ih (max x a)
      exact le_trans (le_max_left x a) h

theorem le_foldMax {α : Type} [LinearOrder α] (x y : α) (xs : List α)
    (h : y ∈ x :: xs) : y ≤ foldMax x xs := by
  induction xs generalizing x with
  | nil =>
      have hx := List.mem_singleton.mp h
      subst hx
      exact le_refl _
  | cons a as ih =>
      rcases List.mem_cons.mp h with h | h
      · subst h
        exact le_trans (le_max_left y a) (foldMax_ge (max y a) as)
      · rcases List.mem_cons.mp h with h | h
        · subst h
          exact le_trans (le_max_right x y) (foldMax_ge (max x y) as)
        · exact ih (max x a) (List.mem_cons_of_mem _ h)

theorem headMinD_le {α : Type} [LinearOrder α] (d y : α) (l : List α)
    (h : y ∈ l) : headMinD d l ≤ y := by
  cases l with
  | nil => cases h
  | cons x xs => exact foldMin_le x y xs h

theorem headMinD_mem {α : Type} [LinearOrder α] (d : α) (l : List α)
    (h : l ≠ []) : headMinD d l ∈ l := by
  cases l with
  | nil => exact absurd rfl h
  | cons x xs => exact foldMin_mem x xs

theorem headMaxD_ge {α : Type} [LinearOrder α] (d y : α) (l : List α)
    (h : y ∈ l) : y ≤ headMaxD d l := by
  cases l with
  | nil => cases h
  | cons x xs => exact le_foldMax x y xs h

theorem log2floorAux_spec (fuel : Nat) :
    ∀ n : Nat, n ≤ fuel → 1 ≤ n →
      2 ^ log2floorAux fuel n ≤ n ∧ n < 2 ^ (log2floorAux fuel n + 1) := by
  induction fuel with
  | zero => intro n hle h1; omega
  | succ fuel ih =>
      intro n hle h1
      by_cases h2 : 2 ≤ n
      · have hrec : n / 2 ≤ fuel := by omega
        have hrec1 : 1 ≤ n / 2 := by omega
        have ⟨hlo, hhi⟩ := ih (n / 2) hrec hrec1
        have heq : log2floorAux (fuel + 1) n = 1 + log2floorAux fuel (n / 2) := by
          simp [log2floorAux, h2]
        constructor
        · rw [heq]
          have : 2 ^ (1 + log2floorAux fuel (n / 2)) = 2 * 2 ^ log2floorAux fuel (n / 2) := by
            ring
          rw [this]
          omega
        · rw [heq]
          have : 2 ^ (1 + log2floorAux fuel (n / 2) + 1) = 2 * 2 ^ (log2floorAux fuel (n / 2) + 1) := by
            ring
          rw [this]
          omega
      · have heq : log2floorAux (fuel + 1) n = 0 := by
          simp [log2floorAux, h2]
        rw [heq]
        simp only [pow_zero, zero_add, pow_one]
        omega

theorem log2floor_spec (n : Nat) (h1 : 1 ≤ n) :
    2 ^ log2floor n ≤ n ∧ n < 2 ^ (log2floor n + 1) :=
  log2floorAux_spec n n (le_refl n) h1

/-! ### Characterizations of the field resolvers -/

theorem trace_field_fail (s : MState) (precArg : Option Nat) (degreeArg : Option Int)
    (hcache : ¬ (s.traceField.isSome ∧ precArg = none ∧ degreeArg = none))
    (hff : s.approxTFGens.find_field (precArg.getD (next_prec_and_degree s .tf).prec)
      (degreeArg.getD (next_prec_and_degree s .tf).degree) = none) :
    trace_field s precArg degreeArg =
      (none,
       { s with tfRecord :=
           (recUpdate s.tfRecord
             ⟨precArg.getD (next_prec_and_degree s .tf).prec,
              degreeArg.getD (next_prec_and_degree s .tf).degree⟩ false) },
       [.findFieldTF (precArg.getD (next_prec_and_degree s .tf).prec)
          (degreeArg.getD (next_prec_and_degree s .tf).degree)]) := by
  simp only [trace_field, if_neg hcache, hff]

theorem trace_field_success (s : MState) (precArg : Option Nat) (degreeArg : Option Int)
    (fd : FieldData)
    (hcache : ¬ (s.traceField.isSome ∧ precArg = none ∧ degreeArg = none))
    (hff : s.approxTFGens.find_field (precArg.getD (next_prec_and_degree s .tf).prec)
      (degreeArg.getD (next_prec_and_degree s .tf).degree) = some fd) :
    trace_field s precArg degreeArg =
      (some fd.field,
       (let pd : PrecDegreeTuple :=
          ⟨precArg.getD (next_prec_and_degree s .tf).prec,
           degreeArg.getD (next_prec_and_degree s .tf).degree⟩
        let s1 := { s with
          traceField := some fd.field
          traceFieldRoot := some fd.root
          traceFieldGens := some fd.gens
          tfRecord := recUpdate s.tfRecord pd true }
        if s.itField = none ∧ s.isModTwoHS = false then
          { s1 with
            itfRecord := recUpdate s1.itfRecord pd true
            itField := some fd.field
            itFieldRoot := some fd.root
            itFieldGens := some fd.gens }
        else s1),
       [.findFieldTF (precArg.getD (next_prec_and_degree s .tf).prec)
          (degreeArg.getD (next_prec_and_degree s .tf).degree)]) := by
  simp only [trace_field, if_neg hcache, hff]

theorem trace_field_cache (s : MState) (F : NumberField) (h : s.traceField = some F) :
    trace_field s none none = (some F, s, []) := by
  simp [trace_field, h]

theorem invariant_trace_field_fail (s : MState) (precArg : Option Nat)
    (degreeArg : Option Int)
    (hcache : ¬ (s.itField.isSome ∧ precArg = none ∧ degreeArg = none))
    (hff : s.approxITFGens.find_field (precArg.getD (next_prec_and_degree s .itf).prec)
      (degreeArg.getD (next_prec_and_degree s .itf).degree) = none) :
    invariant_trace_field s precArg degreeArg =
      (none,
       { s with itfRecord :=
           (recUpdate s.itfRecord
             ⟨precArg.getD (next_prec_and_degree s .itf).prec,
              degreeArg.getD (next_prec_and_degree s .itf).degree⟩ false) },
       [.findFieldITF (precArg.getD (next_prec_and_degree s .itf).prec)
          (degreeArg.getD (next_prec_and_degree s .itf).degree)]) := by
  simp only [invariant_trace_field, if_neg hcache, hff]

theorem invariant_trace_field_cache (s : MState) (F : NumberField)
    (h : s.itField = some F) :
    invariant_trace_field s none none = (some F, s, []) := by
  simp [invariant_trace_field, h]

/-! ### Planner branch characterizations -/

theorem exists_of_mem_succPrecs {r : List (PrecDegreeTuple × Bool)} {q : Nat}
    (h : q ∈ succPrecs r) : ∃ pr ∈ r, pr.2 = true ∧ pr.1.prec = q := by
  rcases List.mem_map.mp h with ⟨pr, hmem, rfl⟩
  rcases List.mem_filter.mp hmem with ⟨hin, hp⟩
  exact ⟨pr, hin, hp, rfl⟩

theorem mem_succPrecs_of {r : List (PrecDegreeTuple × Bool)} {pr : PrecDegreeTuple × Bool}
    (hmem : pr ∈ r) (hp : pr.2 = true) : pr.1.prec ∈ succPrecs r :=
  List.mem_map.mpr ⟨pr, List.mem_filter.mpr ⟨hmem, hp⟩, rfl⟩

theorem exists_of_mem_succDegrees {r : List (PrecDegreeTuple × Bool)} {q : Int}
    (h : q ∈ succDegrees r) : ∃ pr ∈ r, pr.2 = true ∧ pr.1.degree = q := by
  rcases List.mem_map.mp h with ⟨pr, hmem, rfl⟩
  rcases List.mem_filter.mp hmem with ⟨hin, hp⟩
  exact ⟨pr, hin, hp, rfl⟩

theorem mem_succDegrees_of {r : List (PrecDegreeTuple × Bool)} {pr : PrecDegreeTuple × Bool}
    (hmem : pr ∈ r) (hp : pr.2 = true) : pr.1.degree ∈ succDegrees r :=
  List.mem_map.mpr ⟨pr, List.mem_filter.mpr ⟨hmem, hp⟩, rfl⟩

theorem mem_failPrecs_of {r : List (PrecDegreeTuple × Bool)} {pr : PrecDegreeTuple × Bool}
    (hmem : pr ∈ r) (hp : pr.2 = false) : pr.1.prec ∈ failPrecs r :=
  List.mem_map.mpr ⟨pr, List.mem_filter.mpr ⟨hmem, by simp [hp]⟩, rfl⟩

theorem mem_failDegrees_of {r : List (PrecDegreeTuple × Bool)} {pr : PrecDegreeTuple × Bool}
    (hmem : pr ∈ r) (hp : pr.2 = false) : pr.1.degree ∈ failDegrees r :=
  List.mem_map.mpr ⟨pr, List.mem_filter.mpr ⟨hmem, by simp [hp]⟩, rfl⟩

theorem any_eq_false_of_all_false {r : List (PrecDegreeTuple × Bool)}
    (hall : ∀ pr ∈ r, pr.2 = false) : r.any (fun p => p.2) = false := by
  rw [List.any_eq_false]
  intro pr hmem
  simp [hall pr hmem]

theorem next_prec_and_degree_success (s : MState) (k : FieldKind)
    (h : (fieldRecord s k).any (fun p => p.2) = true) :
    next_prec_and_degree s k =
      ⟨headMinD 0 (succPrecs (fieldRecord s k)),
       headMinD 0 (succDegrees (fieldRecord s k))⟩ := by
  have hne : fieldRecord s k ≠ [] := by
    intro he
    rw [he] at h
    simp at h
  simp [next_prec_and_degree, hne, h]

theorem next_prec_and_degree_failure_prec (s : MState) (k : FieldKind)
    (hne : fieldRecord s k ≠ [])
    (hall : ∀ pr ∈ fieldRecord s k, pr.2 = false) :
    (next_prec_and_degree s k).prec =
      headMaxD 0 (failPrecs (fieldRecord s k)) + prec_increment := by
  have hany := any_eq_false_of_all_false hall
  cases k with
  | tf =>
      cases hitf : s.itField with
      | none => simp [next_prec_and_degree, hne, hany, hitf]
      | some F =>
          cases hm : s.isModTwoHS <;>
            simp [next_prec_and_degree, hne, hany, hitf, hm]
  | itf =>
      cases htf : s.traceField with
      | none => simp [next_prec_and_degree, hne, hany, htf]
      | some F => simp [next_prec_and_degree, hne, hany, htf]

theorem next_prec_and_degree_failure_degree_tf (s : MState)
    (hne : s.tfRecord ≠ [])
    (hall : ∀ pr ∈ s.tfRecord, pr.2 = false)
    (hitf : s.itField = none) :
    (next_prec_and_degree s .tf).degree =
      headMaxD 0 (failDegrees s.tfRecord) + (degree_increment : Int) := by
  have hany : (s.tfRecord.any fun p => p.2) = false :=
    any_eq_false_of_all_false hall
  simp [next_prec_and_degree, fieldRecord, hne, hany, hitf]

theorem next_prec_and_degree_failure_degree_itf (s : MState)
    (hne : s.itfRecord ≠ [])
    (hall : ∀ pr ∈ s.itfRecord, pr.2 = false)
    (htf : s.traceField = none) :
    (next_prec_and_degree s .itf).degree =
      headMaxD 0 (failDegrees s.itfRecord) + (degree_increment : Int) := by
  have hany : (s.itfRecord.any fun p => p.2) = false :=
    any_eq_false_of_all_false hall
  simp [next_prec_and_degree, fieldRecord, hne, hany, htf]

theorem recUpdate_mem_last {κ : Type} [DecidableEq κ] (r : List (κ × Bool)) (k : κ)
    (v : Bool) : (k, v) ∈ recUpdate r k v := by
  simp [recUpdate]

theorem recUpdate_all_false {κ : Type} [DecidableEq κ] (r : List (κ × Bool)) (k : κ)
    (hall : ∀ pr ∈ r, pr.2 = false) :
    ∀ pr ∈ recUpdate r k false, pr.2 = false := by
  intro pr h
  rcases List.mem_append.mp h with h | h
  · exact hall pr (List.mem_filter.mp h).1
  · rw [List.mem_singleton.mp h]

theorem recUpdate_ne_nil {κ : Type} [DecidableEq κ] (r : List (κ × Bool)) (k : κ)
    (v : Bool) : recUpdate r k v ≠ [] :=
  List.ne_nil_of_mem (recUpdate_mem_last r k v)

theorem qa_symbol_loop_zero_none (power root prec fuel epsilonCoefficient : Nat) :
    (qa_symbol_loop alwaysZeroQAOracles power root prec fuel epsilonCoefficient).2 = none := by
  induction fuel generalizing epsilonCoefficient with
  | zero => rfl
  | succ n ih => simpa [qa_symbol_loop, alwaysZeroQAOracles] using ih (epsilonCoefficient * 10)

theorem qa_symbol_loop_head_mem (oc : QAOracles) (power root prec m eps : Nat) :
    Event.hilbertWords power eps ∈ (qa_symbol_loop oc power root prec (m + 1) eps).1 := by
  simp only [qa_symbol_loop]
  split <;> simp

theorem quaternion_algebra_field_fail (oc : QAOracles) (s : MState)
    (precArg : Option Nat) (fuel : Nat)
    (hcache : ¬ (s.qa.isSome ∧ precArg = none))
    (htf : s.traceField = none)
    (hff : s.approxTFGens.find_field (precArg.getD (next_prec_alg s .qa))
      (next_prec_and_degree s .tf).degree = none) :
    quaternion_algebra oc s precArg fuel =
      some (none,
        { s with tfRecord := (recUpdate s.tfRecord
            ⟨precArg.getD (next_prec_alg s .qa),
             (next_prec_and_degree s .tf).degree⟩ false) },
        [.findFieldTF (precArg.getD (next_prec_alg s .qa))
           (next_prec_and_degree s .tf).degree]) := by
  have h1 := trace_field_fail s (some (precArg.getD (next_prec_alg s .qa))) none
    (by simp) (by simpa using hff)
  simp [quaternion_algebra, hcache, htf, h1]

theorem invariant_quaternion_algebra_field_fail (oc : QAOracles) (s : MState)
    (precArg : Option Nat) (fuel : Nat)
    (hcache : ¬ (s.iqa.isSome ∧ precArg = none))
    (hitf : s.itField = none)
    (hff : s.approxITFGens.find_field (precArg.getD (next_prec_alg s .iqa))
      (next_prec_and_degree s .itf).degree = none) :
    invariant_quaternion_algebra oc s precArg fuel =
      some (none,
        { s with itfRecord := (recUpdate s.itfRecord
            ⟨precArg.getD (next_prec_alg s .iqa),
             (next_prec_and_degree s .itf).degree⟩ false) },
        [.findFieldITF (precArg.getD (next_prec_alg s .iqa))
           (next_prec_and_degree s .itf).degree]) := by
  have h1 := invariant_trace_field_fail s (some (precArg.getD (next_prec_alg s .iqa)))
    none (by simp) (by simpa using hff)
  simp [invariant_quaternion_algebra, hcache, hitf, h1]

theorem quaternion_algebra_field_success_hilbert (oc : QAOracles) (s : MState)
    (fuel : Nat) (fd : FieldData)
    (htf : s.traceField = none) (hqa : s.qa = none)
    (hff : s.approxTFGens.find_field (next_prec_alg s .qa)
      (next_prec_and_degree s .tf).degree = some fd) :
    ∀ res s2 ev, quaternion_algebra oc s none fuel = some (res, s2, ev) →
      Event.hilbertWords 1 10 ∈ ev := by
  intro res s2 ev h
  have h1 := trace_field_success s (some (next_prec_alg s .qa)) none fd
    (by simp) (by simpa using hff)
  rcases hL : (qa_symbol_loop oc 1 fd.root (next_prec_alg s .qa) fuel 10).2
    with _ | e12
  · rw [quaternion_algebra] at h
    rw [if_neg (by simp [hqa])] at h
    simp only [Option.getD_none, Option.getD_some, if_pos htf, h1,
      apply_ite MState.traceFieldRoot, ite_self, hL] at h
    exact Option.noConfusion h
  · rcases e12 with ⟨e1, e2⟩
    cases fuel with
    | zero =>
        simp [qa_symbol_loop] at hL
    | succ m =>
        have hkey : ev = [Event.findFieldTF (next_prec_alg s .qa)
            (next_prec_and_degree s .tf).degree] ++
            (qa_symbol_loop oc 1 fd.root (next_prec_alg s .qa) (m + 1) 10).1 := by
          by_cases he : e1 = none ∨ e2 = none
          · rw [quaternion_algebra] at h
            rw [if_neg (by simp [hqa])] at h
            simp only [Option.getD_none, Option.getD_some, if_pos htf, h1,
              apply_ite MState.traceFieldRoot, ite_self, hL, if_pos he,
              Option.some.injEq, Prod.mk.injEq] at h
            exact h.2.2.symm
          · rw [quaternion_algebra] at h
            rw [if_neg (by simp [hqa])] at h
            simp only [Option.getD_none, Option.getD_some, if_pos htf, h1,
              apply_ite MState.traceFieldRoot, ite_self, hL, if_neg he,
              Option.some.injEq, Prod.mk.injEq] at h
            exact h.2.2.symm
        rw [hkey]
        exact List.mem_append_right _
          (qa_symbol_loop_head_mem oc 1 fd.root (next_prec_alg s .qa) m 10)

theorem invariant_quaternion_algebra_field_success_hilbert (oc : QAOracles)
    (s : MState) (fuel : Nat) (fd : FieldData)
    (hitf : s.itField = none) (hiqa : s.iqa = none)
    (hff : s.approxITFGens.find_field (next_prec_alg s .iqa)
      (next_prec_and_degree s .itf).degree = some fd) :
    ∀ res s2 ev, invariant_quaternion_algebra oc s none fuel = some (res, s2, ev) →
      Event.hilbertWords 2 10 ∈ ev := by
  intro res s2 ev h
  have h1 : invariant_trace_field s (some (next_prec_alg s .iqa)) none =
      (some fd.field,
       { s with
         itField := some fd.field
         itFieldRoot := some fd.root
         itFieldGens := some fd.gens
         itfRecord := (recUpdate s.itfRecord
           ⟨next_prec_alg s .iqa, (next_prec_and_degree s .itf).degree⟩ true) },
       [.findFieldITF (next_prec_alg s .iqa) (next_prec_and_degree s .itf).degree]) := by
    simp only [invariant_trace_field]
    rw [if_neg (by simp)]
    simp only [Option.getD_none, Option.getD_some, hff]
  rcases hL : (qa_symbol_loop oc 2 fd.root (next_prec_alg s .iqa) fuel 10).2
    with _ | e12
  · rw [invariant_quaternion_algebra] at h
    rw [if_neg (by simp [hiqa])] at h
    simp only [Option.getD_none, Option.getD_some, if_pos hitf, h1, hL] at h
    exact Option.noConfusion h
  · rcases e12 with ⟨e1, e2⟩
    cases fuel with
    | zero =>
        simp [qa_symbol_loop] at hL
    | succ m =>
        have hkey : ev = [Event.findFieldITF (next_prec_alg s .iqa)
            (next_prec_and_degree s .itf).degree] ++
            (qa_symbol_loop oc 2 fd.root (next_prec_alg s .iqa) (m + 1) 10).1 := by
          by_cases he : e1 = none ∨ e2 = none
          · rw [invariant_quaternion_algebra] at h
            rw [if_neg (by simp [hiqa])] at h
            simp only [Option.getD_none, Option.getD_some, if_pos hitf, h1, hL,
              if_pos he, Option.some.injEq, Prod.mk.injEq] at h
            exact h.2.2.symm
          · rw [invariant_quaternion_algebra] at h
            rw [if_neg (by simp [hiqa])] at h
            simp only [Option.getD_none, Option.getD_some, if_pos hitf, h1, hL,
              if_neg he, Option.some.injEq, Prod.mk.injEq] at h
            exact h.2.2.symm
        rw [hkey]
        exact List.mem_append_right _
          (qa_symbol_loop_head_mem oc 2 fd.root (next_prec_alg s .iqa) m 10)

theorem denominators_cache (dc : DenomOracles) (s : MState) (D : Finset Nat)
    (h : s.denominators = some D) :
    denominators dc s = (some D, s, []) := by
  simp [denominators, h]

theorem quaternion_algebra_cache (oc : QAOracles) (s : MState) (A : AlgebraNF)
    (fuel : Nat) (h : s.qa = some A) :
    quaternion_algebra oc s none fuel = some (some A, s, []) := by
  simp [quaternion_algebra, h]

theorem invariant_quaternion_algebra_cache (oc : QAOracles) (s : MState)
    (A : AlgebraNF) (fuel : Nat) (h : s.iqa = some A) :
    invariant_quaternion_algebra oc s none fuel = some (some A, s, []) := by
  simp [invariant_quaternion_algebra, h]

theorem isomorphic_qa_unresolved_error (co : CmpOracles) (qocS qocO : QAOracles)
    (s t : MState) (fuel : Nat)
    (htf : s.traceField = none) (hqa : s.qa = none)
    (horacle : ∀ p d, s.approxTFGens.find_field p d = none)
    (Ft : NumberField) (At : AlgebraNF)
    (httf : t.traceField = some Ft) (htqa : t.qa = some At) :
    isomorphic_quaternion_algebras co qocS qocO s t false fuel =
      some (.error "Trace fields or quaternion algebras not known.",
        qaFieldFailState s, t, isoQAFailEvents s) := by
  have h1 := trace_field_fail s none none (by simp [htf]) (horacle _ _)
  have h2 := trace_field_cache t Ft httf
  have h3 := quaternion_algebra_field_fail qocS (tfFailState s) none fuel
    (by simp [tfFailState, hqa]) (by simp [tfFailState, htf])
    (by simpa [tfFailState] using horacle _ _)
  have h4 := quaternion_algebra_cache qocO t At fuel htqa
  simp only [tfFailState, Option.getD_none] at h3
  simp only [Option.getD_none] at h1
  simp [isomorphic_quaternion_algebras, h1, h2, h3, h4, qaFieldFailState,
    tfFailState, isoQAFailEvents]

theorem compare_unresolved_error (co : CmpOracles) (dc : DenomOracles)
    (qocS qocO : QAOracles) (s t : MState) (fuel : Nat)
    (htf : s.traceField = none) (hitf : s.itField = none) (hqa : s.qa = none)
    (hor1 : ∀ p d, s.approxTFGens.find_field p d = none)
    (hor2 : ∀ p d, s.approxITFGens.find_field p d = none)
    (Ft Gt : NumberField) (At : AlgebraNF)
    (httf : t.traceField = some Ft) (htitf : t.itField = some Gt)
    (htqa : t.qa = some At) :
    compare_arithmetic_invariants co dc qocS qocO s t fuel =
      some (.error "Trace fields or quaternion algebras not known.",
        qaFieldFailState (itfFailState (tfFailState s)), t, compareFailEvents s) := by
  have h1 := trace_field_fail s none none (by simp [htf]) (hor1 _ _)
  have h2 := trace_field_cache t Ft httf
  have h3 := invariant_trace_field_fail (tfFailState s) none none
    (by simp [tfFailState, hitf]) (by simpa [tfFailState] using hor2 _ _)
  have h4 := invariant_trace_field_cache t Gt htitf
  have h5 := isomorphic_qa_unresolved_error co qocS qocO
    (itfFailState (tfFailState s)) t fuel
    (by simp [itfFailState, tfFailState, htf])
    (by simp [itfFailState, tfFailState, hqa])
    (by intro p d; simpa [itfFailState, tfFailState] using hor1 p d) Ft At httf htqa
  simp only [Option.getD_none] at h1
  simp only [tfFailState, Option.getD_none] at h3
  simp only [itfFailState, tfFailState, Option.getD_none] at h5
  simp [compare_arithmetic_invariants, h1, h2, h3, h4, h5, compareFailEvents,
    isoQAFailEvents, qaFieldFailState, itfFailState, tfFailState]

/-! ### Claim theorems -/

/-- C9: whenever the invariant trace field, the invariant quaternion
algebra, and a non-null denominator set are all resolved, `is_arithmetic`
returns true iff the number of ramified real places of the algebra equals
the number of real places of the field's signature, the number of complex
places equals 1, and the denominator set is empty; whenever any of the
three prerequisites is unresolved, it returns unknown (`none`). -/
theorem c9_is_arithmetic_characterization :
    (∀ (s : MState) (F : NumberField) (A : AlgebraNF) (D : Finset Nat),
      s.itField = some F → s.iqa = some A → s.denominators = some D →
      is_arithmetic s =
        some (decide (A.ramRealPlaces.length = F.sig.1 ∧ F.sig.2 = 1 ∧ D = ∅))) ∧
    (∀ s : MState, s.itField = none ∨ s.iqa = none ∨ s.denominators = none →
      is_arithmetic s = none) := by
  constructor
  · intro s F A D hF hA hD
    simp [is_arithmetic, hF, hA, hD]
  · intro s h
    unfold is_arithmetic
    rcases h with h | h | h
    · rw [h]
    · rw [h]
      cases s.itField <;> rfl
    · rw [h]
      cases s.itField <;> cases s.iqa <;> rfl

/-- C9 witness: a state satisfying the arithmeticity criterion (signature
(1, 1), one ramified real place, empty denominators) is classified `true`. -/
theorem c9_is_arithmetic_characterization_witness :
    c9State.itField = some ⟨3, 2, (1, 1)⟩ ∧ is_arithmetic c9State = some true := by
  refine ⟨rfl, ?_⟩
  have h := c9_is_arithmetic_characterization.1 c9State ⟨3, 2, (1, 1)⟩ iqa9 ∅ rfl rfl rfl
  simpa using h

/-- C3: the epsilon-escalation retry loop of the quaternion-algebra
resolution is unbounded in the code: with collaborators for which both
expressed Hilbert-symbol entries always evaluate to the zero element, the
loop never breaks for any number of iterations (there is no iteration cap
and no "insufficient precision/separation" error in the code), and the
whole resolver call diverges for every fuel bound. -/
theorem c3_epsilon_loop_unbounded :
    (∀ power root prec fuel epsilonCoefficient : Nat,
      (qa_symbol_loop alwaysZeroQAOracles power root prec fuel epsilonCoefficient).2 = none) ∧
    (∀ fuel : Nat,
      quaternion_algebra alwaysZeroQAOracles resolvedTFState none fuel = none) := by
  constructor
  · exact qa_symbol_loop_zero_none
  · intro fuel
    simp [quaternion_algebra, resolvedTFState, blankFail, qa_symbol_loop_zero_none]

/-- C1 counterexample: with every invariant unresolved, the classifier
`is_arithmetic` returns unknown (`None`) instead of failing with a
precondition error, and the comparator `_same_denominators` itself
triggers a resolution attempt (an external `find_field` search at the
planner coordinate (1000, 20)) before raising its precondition error. -/
theorem c1_counterexample :
    is_arithmetic blankFail = none ∧
    (same_denominators idCmpOracles trivialDenomOracles blankFail blankFail).1 =
      .error "Trace field not known." ∧
    Event.findFieldTF 1000 20 ∈
      (same_denominators idCmpOracles trivialDenomOracles blankFail blankFail).2.2.2 := by
  decide

/-- C2 counterexample: two manifolds whose resolved trace fields are not
literally the same object but are isomorphic, with both denominator sets
empty, for which `_same_denominators` returns `True` (the transported
comparison), contradicting the claim that it returns false whenever the
trace fields differ. -/
theorem c2_counterexample :
    c2Self.traceField ≠ c2Other.traceField ∧
    (same_denominators idCmpOracles trivialDenomOracles c2Self c2Other).1 = .ok true := by
  decide

/-- C4 counterexample: an all-failure trace-field history on a
mod-2-homology sphere whose invariant trace field is resolved with degree
2: the cross-invariant correction pins the candidate degree to 2 on two
successive planner calls, so the degree does not strictly increase. -/
theorem c4_counterexample :
    next_prec_and_degree c4State .tf = ⟨6000, 2⟩ ∧
    next_prec_and_degree
      (recordFieldFailure c4State .tf (next_prec_and_degree c4State .tf)) .tf =
      ⟨11000, 2⟩ ∧
    ¬ ((next_prec_and_degree c4State .tf).degree <
        (next_prec_and_degree
          (recordFieldFailure c4State .tf (next_prec_and_degree c4State .tf)) .tf).degree) := by
  decide

/-- C6 counterexample: with largest failed precision 1000 and the
invariant trace field of degree 2 on a non-mod-2-homology-sphere, the code
returns candidate degree `(floor(log2 3) + 1) * 2 = 4`, while the claimed
formula `ceil(log2 3 + 1) * 2` gives 6. -/
theorem c6_counterexample :
    next_prec_and_degree c6State .tf = ⟨6000, 4⟩ ∧
    spec_candidate_degree 6000 2 = 6 ∧
    (next_prec_and_degree c6State .tf).degree ≠ spec_candidate_degree 6000 2 := by
  decide

/-- C5: for a field-kind attempt history with at least one success,
`next_prec_and_degree` returns the componentwise minima over all
successful coordinates (minimum precision and minimum degree taken
independently, so the returned pair need not have been attempted), and for
an empty history it returns the configured defaults (1000, 20). -/
theorem c5_planner_success_minima :
    (∀ (s : MState) (k : FieldKind), fieldRecord s k = [] →
      next_prec_and_degree s k = ⟨1000, 20⟩) ∧
    (∀ (s : MState) (k : FieldKind),
      (fieldRecord s k).any (fun p => p.2) = true →
      (∃ pr ∈ fieldRecord s k, pr.2 = true ∧
          pr.1.prec = (next_prec_and_degree s k).prec) ∧
      (∀ pr ∈ fieldRecord s k, pr.2 = true →
          (next_prec_and_degree s k).prec ≤ pr.1.prec) ∧
      (∃ pr ∈ fieldRecord s k, pr.2 = true ∧
          pr.1.degree = (next_prec_and_degree s k).degree) ∧
      (∀ pr ∈ fieldRecord s k, pr.2 = true →
          (next_prec_and_degree s k).degree ≤ pr.1.degree)) := by
  constructor
  · intro s k h
    simp [next_prec_and_degree, h, starting_prec, starting_degree]
  · intro s k h
    rw [next_prec_and_degree_success s k h]
    rcases List.any_eq_true.mp h with ⟨pr0, hmem0, hp0⟩
    have hpne : succPrecs (fieldRecord s k) ≠ [] :=
      List.ne_nil_of_mem (mem_succPrecs_of hmem0 hp0)
    have hdne : succDegrees (fieldRecord s k) ≠ [] :=
      List.ne_nil_of_mem (mem_succDegrees_of hmem0 hp0)
    refine ⟨?_, ?_, ?_, ?_⟩
    · exact exists_of_mem_succPrecs (headMinD_mem 0 _ hpne)
    · intro pr hmem hp
      exact headMinD_le 0 _ _ (mem_succPrecs_of hmem hp)
    · exact exists_of_mem_succDegrees (headMinD_mem 0 _ hdne)
    · intro pr hmem hp
      exact headMinD_le 0 _ _ (mem_succDegrees_of hmem hp)

/-- C5 witness: two successes at (1000, 20) and (500, 30) make the planner
return (500, 20), a pair never attempted, and the minima properties hold. -/
theorem c5_planner_success_minima_witness :
    ((fieldRecord c5WitnessState .tf).any (fun p => p.2) = true) ∧
    ((∃ pr ∈ fieldRecord c5WitnessState .tf, pr.2 = true ∧
        pr.1.prec = (next_prec_and_degree c5WitnessState .tf).prec) ∧
     (∀ pr ∈ fieldRecord c5WitnessState .tf, pr.2 = true →
        (next_prec_and_degree c5WitnessState .tf).prec ≤ pr.1.prec) ∧
     (∃ pr ∈ fieldRecord c5WitnessState .tf, pr.2 = true ∧
        pr.1.degree = (next_prec_and_degree c5WitnessState .tf).degree) ∧
     (∀ pr ∈ fieldRecord c5WitnessState .tf, pr.2 = true →
        (next_prec_and_degree c5WitnessState .tf).degree ≤ pr.1.degree)) ∧
    next_prec_and_degree c5WitnessState .tf = ⟨500, 20⟩ ∧
    (⟨500, 20⟩ : PrecDegreeTuple) ∉ (fieldRecord c5WitnessState .tf).map (fun p => p.1) :=
  ⟨by decide, c5_planner_success_minima.2 c5WitnessState .tf (by decide),
   by decide, by decide⟩

/-- C1 (amended): the classifier `is_arithmetic` never raises — it returns
unknown (`None`) whenever any prerequisite is unresolved, and being a pure
state function it triggers no resolution.  The comparator operations do
NOT refuse to resolve: they call the standard accessors, which attempt
resolution of missing invariants (performing external `find_field`
searches), and they raise their `RuntimeError` precondition errors only
when the invariant is still unresolved after those attempts;
`compare_arithmetic_invariants` (and hence
`has_same_arithmetic_invariants`) propagates those errors. -/
theorem c1_amended_comparators_resolve_then_raise :
    (∀ s : MState, s.itField = none ∨ s.iqa = none ∨ s.denominators = none →
      is_arithmetic s = none) ∧
    (∀ (co : CmpOracles) (dc : DenomOracles) (s t : MState),
      s.traceField = none →
      (∀ p d, s.approxTFGens.find_field p d = none) →
      (same_denominators co dc s t).1 = .error "Trace field not known." ∧
      Event.findFieldTF (next_prec_and_degree s .tf).prec
        (next_prec_and_degree s .tf).degree ∈
        (same_denominators co dc s t).2.2.2) ∧
    (∀ (co : CmpOracles) (qocS qocO : QAOracles) (s t : MState) (fuel : Nat)
        (Ft : NumberField) (At : AlgebraNF),
      s.traceField = none → s.qa = none →
      (∀ p d, s.approxTFGens.find_field p d = none) →
      t.traceField = some Ft → t.qa = some At →
      isomorphic_quaternion_algebras co qocS qocO s t false fuel =
        some (.error "Trace fields or quaternion algebras not known.",
          qaFieldFailState s, t, isoQAFailEvents s) ∧
      Event.findFieldTF (next_prec_and_degree s .tf).prec
        (next_prec_and_degree s .tf).degree ∈ isoQAFailEvents s) ∧
    (∀ (co : CmpOracles) (dc : DenomOracles) (qocS qocO : QAOracles)
        (s t : MState) (fuel : Nat) (Ft Gt : NumberField) (At : AlgebraNF),
      s.traceField = none → s.itField = none → s.qa = none →
      (∀ p d, s.approxTFGens.find_field p d = none) →
      (∀ p d, s.approxITFGens.find_field p d = none) →
      t.traceField = some Ft → t.itField = some Gt → t.qa = some At →
      compare_arithmetic_invariants co dc qocS qocO s t fuel =
        some (.error "Trace fields or quaternion algebras not known.",
          qaFieldFailState (itfFailState (tfFailState s)), t, compareFailEvents s) ∧
      Event.findFieldTF (next_prec_and_degree s .tf).prec
        (next_prec_and_degree s .tf).degree ∈ compareFailEvents s) := by
  refine ⟨?_, ?_, ?_, ?_⟩
  · intro s h
    unfold is_arithmetic
    rcases h with h | h | h
    · rw [h]
    · rw [h]
      cases s.itField <;> rfl
    · rw [h]
      cases s.itField <;> cases s.iqa <;> rfl
  · intro co dc s t htf horacle
    have h1 := trace_field_fail s none none (by simp [htf]) (horacle _ _)
    simp only [Option.getD_none] at h1
    constructor
    · simp [same_denominators, h1]
    · simp [same_denominators, h1]
  · intro co qocS qocO s t fuel Ft At htf hqa horacle httf htqa
    exact ⟨isomorphic_qa_unresolved_error co qocS qocO s t fuel htf hqa horacle
      Ft At httf htqa, by simp [isoQAFailEvents]⟩
  · intro co dc qocS qocO s t fuel Ft Gt At htf hitf hqa hor1 hor2 httf htitf htqa
    exact ⟨compare_unresolved_error co dc qocS qocO s t fuel htf hitf hqa hor1 hor2
      Ft Gt At httf htitf htqa, by simp [compareFailEvents]⟩

/-- C1 witness: on a blank manifold compared against a fully resolved one,
the classifier returns unknown, `_same_denominators` performs a field
search before raising its trace-field error, and
`_isomorphic_quaternion_algebras` and `compare_arithmetic_invariants`
perform field searches before raising their precondition error. -/
theorem c1_amended_comparators_resolve_then_raise_witness :
    is_arithmetic blankFail = none ∧
    ((same_denominators idCmpOracles trivialDenomOracles blankFail c1Other).1 =
       .error "Trace field not known." ∧
     Event.findFieldTF (next_prec_and_degree blankFail .tf).prec
       (next_prec_and_degree blankFail .tf).degree ∈
       (same_denominators idCmpOracles trivialDenomOracles blankFail c1Other).2.2.2) ∧
    (isomorphic_quaternion_algebras idCmpOracles noneExpressQAOracles
        noneExpressQAOracles blankFail c1Other false 1 =
      some (.error "Trace fields or quaternion algebras not known.",
        qaFieldFailState blankFail, c1Other, isoQAFailEvents blankFail)) ∧
    (compare_arithmetic_invariants idCmpOracles trivialDenomOracles
        noneExpressQAOracles noneExpressQAOracles blankFail c1Other 1 =
      some (.error "Trace fields or quaternion algebras not known.",
        qaFieldFailState (itfFailState (tfFailState blankFail)), c1Other,
        compareFailEvents blankFail)) := by
  refine ⟨?_, ?_, ?_, ?_⟩
  · exact c1_amended_comparators_resolve_then_raise.1 blankFail (Or.inl rfl)
  · exact c1_amended_comparators_resolve_then_raise.2.1 idCmpOracles
      trivialDenomOracles blankFail c1Other rfl (fun p d => rfl)
  · exact (c1_amended_comparators_resolve_then_raise.2.2.1 idCmpOracles
      noneExpressQAOracles noneExpressQAOracles blankFail c1Other 1 ⟨9, 2, (1, 1)⟩
      iqa9 rfl rfl (fun p d => rfl) rfl rfl).1
  · exact (c1_amended_comparators_resolve_then_raise.2.2.2 idCmpOracles
      trivialDenomOracles noneExpressQAOracles noneExpressQAOracles blankFail
      c1Other 1 ⟨9, 2, (1, 1)⟩ ⟨9, 2, (1, 1)⟩ iqa9 rfl rfl rfl (fun p d => rfl)
      (fun p d => rfl) rfl rfl rfl).1

/-- C2 (amended): with resolved trace fields and known denominator sets on
both sides, `_same_denominators` returns false when the stored
residue-characteristic sets differ; when the trace fields are literally
equal it returns true iff the prime-ideal sets are equal; when the fields
are distinct and not isomorphic it returns false; and when they are
distinct but isomorphic it does NOT return false by convention — it
compares this manifold's denominator set against the other's transported
through the special isomorphism (in particular it returns true when both
sets are empty). -/
theorem c2_amended_same_denominators :
    ∀ (co : CmpOracles) (dc : DenomOracles) (s t : MState)
      (F1 F2 : NumberField) (D1 D2 : Finset Nat),
      s.traceField = some F1 → t.traceField = some F2 →
      s.denominators = some D1 → t.denominators = some D2 →
      ((s.denomResChars ≠ t.denomResChars →
         (same_denominators co dc s t).1 = .ok false) ∧
       (s.denomResChars = t.denomResChars → F1 = F2 →
         (same_denominators co dc s t).1 = .ok (decide (D1 = D2))) ∧
       (s.denomResChars = t.denomResChars → F1 ≠ F2 →
         co.is_isomorphic_field F1 F2 = false →
         (same_denominators co dc s t).1 = .ok false) ∧
       (s.denomResChars = t.denomResChars → F1 ≠ F2 →
         co.is_isomorphic_field F1 F2 = true →
         (same_denominators co dc s t).1 =
           .ok (decide (D1 = D2.image (co.isoApplyIdeal
             (co.special_isomorphism F1 F2
               (t.approxTFGens.gensList.map (fun g =>
                 co.expressPD (t.traceFieldRoot.getD 0) g
                   (pdMax (next_prec_and_degree s .tf) (next_prec_and_degree t .tf))))
               (t.approxTFGens.gensList.map (fun g =>
                 co.expressPD (s.traceFieldRoot.getD 0) g
                   (pdMax (next_prec_and_degree s .tf)
                     (next_prec_and_degree t .tf)))))))))) := by
  intro co dc s t F1 F2 D1 D2 htf1 htf2 hd1 hd2
  have hc1 := trace_field_cache s F1 htf1
  have hc2 := trace_field_cache t F2 htf2
  have hdc1 := denominators_cache dc s D1 hd1
  have hdc2 := denominators_cache dc t D2 hd2
  refine ⟨?_, ?_, ?_, ?_⟩
  · intro hrc
    simp [same_denominators, hc1, hc2, hdc1, hdc2, hrc]
  · intro hrc heq
    subst heq
    by_cases hD : D1 = D2 <;>
      simp [same_denominators, hc1, hc2, hdc1, hdc2, hrc, htf1, htf2, hd1, hd2, hD]
  · intro hrc hne hiso
    have hne2 : ¬ (some F1 = some F2) := by simpa using hne
    simp [same_denominators, hc1, hc2, hdc1, hdc2, hrc, htf1, htf2, hne2, hiso]
  · intro hrc hne hiso
    have hne2 : ¬ (some F1 = some F2) := by simpa using hne
    simp [same_denominators, hc1, hc2, hdc1, hdc2, hrc, htf1, htf2, hd1, hd2,
      hne2, hiso]

/-- C2 witness: literally equal trace fields with equal (empty)
denominator sets give `True`, and distinct isomorphic fields with both
denominator sets empty also give `True` under the transported comparison. -/
theorem c2_amended_same_denominators_witness :
    c2Self.traceField = some ⟨1, 2, (0, 1)⟩ ∧
    c2SameField.traceField = some ⟨1, 2, (0, 1)⟩ ∧
    (same_denominators idCmpOracles trivialDenomOracles c2Self c2SameField).1 =
      .ok true := by
  refine ⟨rfl, rfl, ?_⟩
  have h := (c2_amended_same_denominators idCmpOracles trivialDenomOracles c2Self
    c2SameField ⟨1, 2, (0, 1)⟩ ⟨1, 2, (0, 1)⟩ ∅ ∅ rfl rfl rfl rfl).2.1 rfl rfl
  simpa using h

/-- C4 (amended): under an all-failure history, successive planner calls
(with each returned coordinate recorded as a new failure) strictly
increase the precision; the degree also strictly increases when no
cross-invariant degree correction applies (that is, when the trace field
is being planned with the invariant trace field unresolved, or vice
versa).  When the correction applies, the degree is the override value and
need not increase (see the counterexample). -/
theorem c4_amended_monotone_escalation :
    ∀ (s : MState) (k : FieldKind),
      fieldRecord s k ≠ [] →
      (∀ pr ∈ fieldRecord s k, pr.2 = false) →
      (next_prec_and_degree s k).prec <
        (next_prec_and_degree
          (recordFieldFailure s k (next_prec_and_degree s k)) k).prec ∧
      ((k = .tf ∧ s.itField = none) ∨ (k = .itf ∧ s.traceField = none) →
        (next_prec_and_degree s k).degree <
          (next_prec_and_degree
            (recordFieldFailure s k (next_prec_and_degree s k)) k).degree) := by
  intro s k hne hall
  set r1 := next_prec_and_degree s k with hr1
  have hrec2 : fieldRecord (recordFieldFailure s k r1) k =
      recUpdate (fieldRecord s k) r1 false := by
    cases k <;> simp [recordFieldFailure, fieldRecord]
  have hne2 : fieldRecord (recordFieldFailure s k r1) k ≠ [] := by
    rw [hrec2]; exact recUpdate_ne_nil _ _ _
  have hall2 : ∀ pr ∈ fieldRecord (recordFieldFailure s k r1) k, pr.2 = false := by
    rw [hrec2]; exact recUpdate_all_false _ _ hall
  constructor
  · rw [next_prec_and_degree_failure_prec s k hne hall,
        next_prec_and_degree_failure_prec _ k hne2 hall2, hrec2]
    have hmem : r1.prec ∈ failPrecs (recUpdate (fieldRecord s k) r1 false) := by
      have h1 : ((r1, false) : PrecDegreeTuple × Bool).1.prec ∈
          failPrecs (recUpdate (fieldRecord s k) r1 false) :=
        mem_failPrecs_of (recUpdate_mem_last _ _ _) rfl
      simpa using h1
    have hge := headMaxD_ge 0 _ _ hmem
    rw [next_prec_and_degree_failure_prec s k hne hall] at hge
    have hpos : 0 < prec_increment := by decide
    omega
  · intro hcorr
    rcases hcorr with ⟨hk, hcross⟩ | ⟨hk, hcross⟩
    · subst hk
      have hitf2 : (recordFieldFailure s .tf r1).itField = none := by
        simp [recordFieldFailure, hcross]
      rw [next_prec_and_degree_failure_degree_tf s hne hall hcross,
          next_prec_and_degree_failure_degree_tf _ hne2 hall2 hitf2]
      have hrec2t : (recordFieldFailure s .tf r1).tfRecord =
          recUpdate s.tfRecord r1 false := by
        simp [recordFieldFailure]
      rw [hrec2t]
      have hmem : r1.degree ∈ failDegrees (recUpdate s.tfRecord r1 false) := by
        have h1 : ((r1, false) : PrecDegreeTuple × Bool).1.degree ∈
            failDegrees (recUpdate s.tfRecord r1 false) :=
          mem_failDegrees_of (recUpdate_mem_last _ _ _) rfl
        simpa using h1
      have hge := headMaxD_ge 0 _ _ hmem
      rw [next_prec_and_degree_failure_degree_tf s hne hall hcross] at hge
      have hpos : (0 : Int) < (degree_increment : Int) := by decide
      omega
    · subst hk
      have htf2 : (recordFieldFailure s .itf r1).traceField = none := by
        simp [recordFieldFailure, hcross]
      rw [next_prec_and_degree_failure_degree_itf s hne hall hcross,
          next_prec_and_degree_failure_degree_itf _ hne2 hall2 htf2]
      have hrec2t : (recordFieldFailure s .itf r1).itfRecord =
          recUpdate s.itfRecord r1 false := by
        simp [recordFieldFailure]
      rw [hrec2t]
      have hmem : r1.degree ∈ failDegrees (recUpdate s.itfRecord r1 false) := by
        have h1 : ((r1, false) : PrecDegreeTuple × Bool).1.degree ∈
            failDegrees (recUpdate s.itfRecord r1 false) :=
          mem_failDegrees_of (recUpdate_mem_last _ _ _) rfl
        simpa using h1
      have hge := headMaxD_ge 0 _ _ hmem
      rw [next_prec_and_degree_failure_degree_itf s hne hall hcross] at hge
      have hpos : (0 : Int) < (degree_increment : Int) := by decide
      omega

/-- C4 witness: a single failed attempt at (1000, 20) with no cross
invariant resolved escalates to (6000, 25) and then (11000, 30): both
coordinates strictly increase. -/
theorem c4_amended_monotone_escalation_witness :
    (fieldRecord c4WitnessState .tf ≠ [] ∧
      (∀ pr ∈ fieldRecord c4WitnessState .tf, pr.2 = false)) ∧
    (next_prec_and_degree c4WitnessState .tf).prec <
      (next_prec_and_degree
        (recordFieldFailure c4WitnessState .tf
          (next_prec_and_degree c4WitnessState .tf)) .tf).prec ∧
    (next_prec_and_degree c4WitnessState .tf).degree <
      (next_prec_and_degree
        (recordFieldFailure c4WitnessState .tf
          (next_prec_and_degree c4WitnessState .tf)) .tf).degree :=
  ⟨⟨by decide, by decide⟩,
   (c4_amended_monotone_escalation c4WitnessState .tf (by decide) (by decide)).1,
   (c4_amended_monotone_escalation c4WitnessState .tf (by decide) (by decide)).2
     (Or.inl ⟨rfl, rfl⟩)⟩

/-- C6 (amended): for an all-failure trace-field history with the
invariant trace field resolved to a field of degree d2, the planner
returns precision P = (largest failed precision) + precisionIncrement and
overrides the candidate degree as follows: on a mod-2-homology sphere the
degree is d2; otherwise it is `(floor(log2(P · degreeIncrement /
(precisionIncrement · d2))) + 1) · d2` (the code uses the floor of the
logarithm plus one, not the ceiling of the logarithm plus one as the
claim's formula states), characterized here by the unique j with
`2^j ≤ P·degreeIncrement/(precisionIncrement·d2) < 2^(j+1)`; symmetrically,
planning the invariant trace field with the trace field resolved overrides
the degree with the trace field's degree. -/
theorem c6_amended_degree_override :
    (∀ (s : MState) (F : NumberField),
      s.tfRecord ≠ [] →
      (∀ pr ∈ s.tfRecord, pr.2 = false) →
      s.itField = some F →
      1 ≤ F.deg →
      (next_prec_and_degree s .tf).prec =
        headMaxD 0 (failPrecs s.tfRecord) + prec_increment ∧
      (s.isModTwoHS = true →
        (next_prec_and_degree s .tf).degree = (F.deg : Int)) ∧
      (s.isModTwoHS = false →
        prec_increment * F.deg ≤
          (headMaxD 0 (failPrecs s.tfRecord) + prec_increment) * degree_increment →
        ∃ j : Nat,
          2 ^ j * (prec_increment * F.deg) ≤
            (headMaxD 0 (failPrecs s.tfRecord) + prec_increment) * degree_increment ∧
          (headMaxD 0 (failPrecs s.tfRecord) + prec_increment) * degree_increment <
            2 ^ (j + 1) * (prec_increment * F.deg) ∧
          (next_prec_and_degree s .tf).degree = ((j : Int) + 1) * (F.deg : Int))) ∧
    (∀ (s : MState) (G : NumberField),
      s.itfRecord ≠ [] →
      (∀ pr ∈ s.itfRecord, pr.2 = false) →
      s.traceField = some G →
      (next_prec_and_degree s .itf).degree = (G.deg : Int) ∧
      (next_prec_and_degree s .itf).prec =
        headMaxD 0 (failPrecs s.itfRecord) + prec_increment) := by
  constructor
  · intro s F hne hall hitf hdeg
    have hany : (s.tfRecord.any fun p => p.2) = false := any_eq_false_of_all_false hall
    refine ⟨next_prec_and_degree_failure_prec s .tf hne hall, ?_, ?_⟩
    · intro hm
      simp [next_prec_and_degree, fieldRecord, hne, hany, hitf, hm]
    · intro hm hge
      have hdpos : 0 < prec_increment * F.deg := Nat.mul_pos (by decide) hdeg
      have hdeq : (next_prec_and_degree s .tf).degree =
          (floorLog2 ((headMaxD 0 (failPrecs s.tfRecord) + prec_increment) * degree_increment)
            (prec_increment * F.deg) + 1) * (F.deg : Int) := by
        simp [next_prec_and_degree, fieldRecord, hne, hany, hitf, hm]
      have hfl : floorLog2
          ((headMaxD 0 (failPrecs s.tfRecord) + prec_increment) * degree_increment)
          (prec_increment * F.deg) =
          (log2floor (((headMaxD 0 (failPrecs s.tfRecord) + prec_increment) *
            degree_increment) / (prec_increment * F.deg)) : Int) := by
        rw [floorLog2, if_pos hge]
      have h1 : 1 ≤ ((headMaxD 0 (failPrecs s.tfRecord) + prec_increment) *
          degree_increment) / (prec_increment * F.deg) :=
        (Nat.one_le_div_iff hdpos).mpr hge
      have hspec := log2floor_spec _ h1
      refine ⟨log2floor (((headMaxD 0 (failPrecs s.tfRecord) + prec_increment) *
        degree_increment) / (prec_increment * F.deg)), ?_, ?_, ?_⟩
      · exact (Nat.le_div_iff_mul_le hdpos).mp hspec.1
      · exact (Nat.div_lt_iff_lt_mul hdpos).mp hspec.2
      · rw [hdeq, hfl]
  · intro s G hne hall htf
    have hany : (s.itfRecord.any fun p => p.2) = false := any_eq_false_of_all_false hall
    exact ⟨by simp [next_prec_and_degree, fieldRecord, hne, hany, htf],
      next_prec_and_degree_failure_prec s .itf hne hall⟩

/-- C6 witness: at the counterexample state (largest failed precision
1000, invariant trace field of degree 2, not a mod-2-homology sphere) the
amended formula gives precision 6000 and degree (j + 1) · 2 with
2^j ≤ 3 < 2^(j+1), that is j = 1 and degree 4. -/
theorem c6_amended_degree_override_witness :
    c6State.itField = some ⟨1, 2, (0, 1)⟩ ∧
    (next_prec_and_degree c6State .tf).prec =
      headMaxD 0 (failPrecs c6State.tfRecord) + prec_increment ∧
    (∃ j : Nat,
      2 ^ j * (prec_increment * 2) ≤
        (headMaxD 0 (failPrecs c6State.tfRecord) + prec_increment) * degree_increment ∧
      (headMaxD 0 (failPrecs c6State.tfRecord) + prec_increment) * degree_increment <
        2 ^ (j + 1) * (prec_increment * 2) ∧
      (next_prec_and_degree c6State .tf).degree = ((j : Int) + 1) * ((2 : Nat) : Int)) := by
  have h := c6_amended_degree_override.1 c6State ⟨1, 2, (0, 1)⟩ (by decide) (by decide)
    rfl (by decide)
  exact ⟨rfl, h.1, h.2.2 rfl (by decide)⟩

/-- C7: a successful trace-field resolution attempt at (p, d) on a
manifold that is not a mod-2-homology sphere and whose invariant trace
field is unresolved also populates the invariant trace field's cache
(field, numerical root, generator images) from the same result and records
a success at (p, d) in the invariant trace field's attempt record; on a
mod-2-homology sphere, or with the invariant trace field already resolved,
no such propagation occurs. -/
theorem c7_trace_field_propagation :
    (∀ (s : MState) (p : Nat) (d : Int) (fd : FieldData),
      s.approxTFGens.find_field p d = some fd →
      s.isModTwoHS = false →
      s.itField = none →
      (trace_field s (some p) (some d)).1 = some fd.field ∧
      (trace_field s (some p) (some d)).2.1.itField = some fd.field ∧
      (trace_field s (some p) (some d)).2.1.itFieldRoot = some fd.root ∧
      (trace_field s (some p) (some d)).2.1.itFieldGens = some fd.gens ∧
      (trace_field s (some p) (some d)).2.1.itfRecord =
        recUpdate s.itfRecord ⟨p, d⟩ true ∧
      (trace_field s (some p) (some d)).2.1.tfRecord =
        recUpdate s.tfRecord ⟨p, d⟩ true ∧
      (trace_field s (some p) (some d)).2.1.traceField = some fd.field) ∧
    (∀ (s : MState) (p : Nat) (d : Int) (fd : FieldData),
      s.approxTFGens.find_field p d = some fd →
      (s.isModTwoHS = true ∨ s.itField ≠ none) →
      (trace_field s (some p) (some d)).1 = some fd.field ∧
      (trace_field s (some p) (some d)).2.1.itField = s.itField ∧
      (trace_field s (some p) (some d)).2.1.itFieldRoot = s.itFieldRoot ∧
      (trace_field s (some p) (some d)).2.1.itFieldGens = s.itFieldGens ∧
      (trace_field s (some p) (some d)).2.1.itfRecord = s.itfRecord) := by
  constructor
  · intro s p d fd hff hm hitf
    simp [trace_field, hff, hm, hitf]
  · intro s p d fd hff hcond
    have hx : ¬ (s.itField = none ∧ s.isModTwoHS = false) := by
      rcases hcond with h | h
      · intro hc
        rw [h] at hc
        exact absurd hc.2 (by simp)
      · intro hc
        exact h hc.1
    simp [trace_field, hff, hx]

/-- C7 witness: on a blank non-mod-2-homology-sphere state whose field
search succeeds, a trace-field attempt at (2000, 30) populates the
invariant trace field and records a success there at (2000, 30). -/
theorem c7_trace_field_propagation_witness :
    c8State.approxTFGens.find_field 2000 30 = some ⟨⟨7, 2, (0, 1)⟩, 5, [13, 14]⟩ ∧
    (trace_field c8State (some 2000) (some 30)).2.1.itField = some ⟨7, 2, (0, 1)⟩ ∧
    (trace_field c8State (some 2000) (some 30)).2.1.itfRecord =
      [(⟨2000, 30⟩, true)] := by
  have h := c7_trace_field_propagation.1 c8State 2000 30 ⟨⟨7, 2, (0, 1)⟩, 5, [13, 14]⟩
    rfl rfl rfl
  refine ⟨rfl, h.2.1, ?_⟩
  rw [h.2.2.2.2.1]
  rfl

/-- C8 (amended): each resolution attempt writes exactly one entry to the
attempted kind's own record, at the attempted coordinate, with overwrite
semantics (`recUpdate`); in addition, a successful trace-field attempt
with the propagation condition of C7 also writes one entry to the
invariant trace field's record.  A failed attempt changes nothing except
that one entry: a failed field attempt leaves every other state component
unchanged, and a failed algebra attempt (over an already-resolved field)
leaves every component except its own record unchanged. -/
theorem c8_amended_attempt_record_effects :
    (∀ (s : MState) (p : Nat) (d : Int),
      s.approxTFGens.find_field p d = none →
      trace_field s (some p) (some d) =
        (none, { s with tfRecord := (recUpdate s.tfRecord ⟨p, d⟩ false) },
         [.findFieldTF p d])) ∧
    (∀ (s : MState) (p : Nat) (d : Int),
      s.approxITFGens.find_field p d = none →
      invariant_trace_field s (some p) (some d) =
        (none, { s with itfRecord := (recUpdate s.itfRecord ⟨p, d⟩ false) },
         [.findFieldITF p d])) ∧
    (∀ (oc : QAOracles) (s : MState) (F : NumberField) (p fuel : Nat)
        (e1 e2 : Option Int),
      s.traceField = some F →
      (qa_symbol_loop oc 1 (s.traceFieldRoot.getD 0) p fuel 10).2 = some (e1, e2) →
      e1 = none ∨ e2 = none →
      quaternion_algebra oc s (some p) fuel =
        some (none, { s with qaRecord := (recUpdate s.qaRecord p false) },
          (qa_symbol_loop oc 1 (s.traceFieldRoot.getD 0) p fuel 10).1)) ∧
    (∀ (oc : QAOracles) (s : MState) (F : NumberField) (p fuel : Nat)
        (e1 e2 : Option Int),
      s.itField = some F →
      (qa_symbol_loop oc 2 (s.itFieldRoot.getD 0) p fuel 10).2 = some (e1, e2) →
      e1 = none ∨ e2 = none →
      invariant_quaternion_algebra oc s (some p) fuel =
        some (none, { s with iqaRecord := (recUpdate s.iqaRecord p false) },
          (qa_symbol_loop oc 2 (s.itFieldRoot.getD 0) p fuel 10).1)) := by
  refine ⟨?_, ?_, ?_, ?_⟩
  · intro s p d hff
    exact trace_field_fail s (some p) (some d) (by simp) (by simpa using hff)
  · intro s p d hff
    exact invariant_trace_field_fail s (some p) (some d) (by simp) (by simpa using hff)
  · intro oc s F p fuel e1 e2 htf hloop he
    rcases he with he | he <;> subst he <;>
      simp [quaternion_algebra, htf, hloop]
  · intro oc s F p fuel e1 e2 hitf hloop he
    rcases he with he | he <;> subst he <;>
      simp [invariant_quaternion_algebra, hitf, hloop]

/-- C8 witness: a failed trace-field attempt at (2000, 25) writes exactly
the one record entry and changes nothing else, and a failed
quaternion-algebra attempt at precision 1000 over a resolved trace field
(express returns None for both entries) writes exactly one failed entry
into its own record. -/
theorem c8_amended_attempt_record_effects_witness :
    blankFail.approxTFGens.find_field 2000 25 = none ∧
    trace_field blankFail (some 2000) (some 25) =
      (none,
       { blankFail with tfRecord := (recUpdate blankFail.tfRecord ⟨2000, 25⟩ false) },
       [.findFieldTF 2000 25]) ∧
    quaternion_algebra noneExpressQAOracles resolvedTFState (some 1000) 1 =
      some (none,
        { resolvedTFState with
            qaRecord := (recUpdate resolvedTFState.qaRecord 1000 false) },
        (qa_symbol_loop noneExpressQAOracles 1
          (resolvedTFState.traceFieldRoot.getD 0) 1000 1 10).1) :=
  ⟨rfl,
   c8_amended_attempt_record_effects.1 blankFail 2000 25 rfl,
   c8_amended_attempt_record_effects.2.2.1 noneExpressQAOracles resolvedTFState
     ⟨1, 2, (0, 1)⟩ 1000 1 none none rfl rfl (Or.inl rfl)⟩

/-- C10: calling `quaternion_algebra()` (respectively
`invariant_quaternion_algebra()`) with no explicit precision on a state
whose trace field (respectively invariant trace field) and algebra are
unresolved first attempts to resolve that field at the chosen precision
(the algebra planner's precision, with the field planner's degree); when
that field resolution fails the call returns `None` — the embedded
function has no error outcome on this path, mirroring the absence of any
`raise` — after exactly the one `find_field` event, with no Hilbert-symbol
word search; when the field resolution succeeds and the call returns, the
Hilbert-symbol search has proceeded (a word-search event at the default
epsilon coefficient 10 is in the log). -/
theorem c10_algebra_resolvers_resolve_field_first :
    (∀ (oc : QAOracles) (s : MState) (fuel : Nat),
      s.traceField = none → s.qa = none →
      (s.approxTFGens.find_field (next_prec_alg s .qa)
          (next_prec_and_degree s .tf).degree = none →
        quaternion_algebra oc s none fuel =
          some (none,
            { s with tfRecord := (recUpdate s.tfRecord
                ⟨next_prec_alg s .qa, (next_prec_and_degree s .tf).degree⟩ false) },
            [.findFieldTF (next_prec_alg s .qa)
               (next_prec_and_degree s .tf).degree])) ∧
      (∀ (fd : FieldData) (res : Option AlgebraNF) (s2 : MState) (ev : List Event),
        s.approxTFGens.find_field (next_prec_alg s .qa)
          (next_prec_and_degree s .tf).degree = some fd →
        quaternion_algebra oc s none fuel = some (res, s2, ev) →
        Event.hilbertWords 1 10 ∈ ev)) ∧
    (∀ (oc : QAOracles) (s : MState) (fuel : Nat),
      s.itField = none → s.iqa = none →
      (s.approxITFGens.find_field (next_prec_alg s .iqa)
          (next_prec_and_degree s .itf).degree = none →
        invariant_quaternion_algebra oc s none fuel =
          some (none,
            { s with itfRecord := (recUpdate s.itfRecord
                ⟨next_prec_alg s .iqa, (next_prec_and_degree s .itf).degree⟩ false) },
            [.findFieldITF (next_prec_alg s .iqa)
               (next_prec_and_degree s .itf).degree])) ∧
      (∀ (fd : FieldData) (res : Option AlgebraNF) (s2 : MState) (ev : List Event),
        s.approxITFGens.find_field (next_prec_alg s .iqa)
          (next_prec_and_degree s .itf).degree = some fd →
        invariant_quaternion_algebra oc s none fuel = some (res, s2, ev) →
        Event.hilbertWords 2 10 ∈ ev)) := by
  constructor
  · intro oc s fuel htf hqa
    constructor
    · intro hff
      simpa using quaternion_algebra_field_fail oc s none fuel (by simp [hqa]) htf
        (by simpa using hff)
    · intro fd res s2 ev hff h
      exact quaternion_algebra_field_success_hilbert oc s fuel fd htf hqa hff res s2 ev h
  · intro oc s fuel hitf hiqa
    constructor
    · intro hff
      simpa using invariant_quaternion_algebra_field_fail oc s none fuel
        (by simp [hiqa]) hitf (by simpa using hff)
    · intro fd res s2 ev hff h
      exact invariant_quaternion_algebra_field_success_hilbert oc s fuel fd hitf hiqa
        hff res s2 ev h

/-- C10 witness: on a blank state with failing field search, the algebra
call returns `None` after the single field attempt at (1000, 20); on a
blank state with succeeding field search and express returning `None`, the
returned event log contains the Hilbert-word search at epsilon 10. -/
theorem c10_algebra_resolvers_resolve_field_first_witness :
    blankFail.approxTFGens.find_field (next_prec_alg blankFail .qa)
      (next_prec_and_degree blankFail .tf).degree = none ∧
    quaternion_algebra noneExpressQAOracles blankFail none 1 =
      some (none,
        { blankFail with tfRecord := (recUpdate blankFail.tfRecord
            ⟨next_prec_alg blankFail .qa,
             (next_prec_and_degree blankFail .tf).degree⟩ false) },
        [.findFieldTF (next_prec_alg blankFail .qa)
           (next_prec_and_degree blankFail .tf).degree]) ∧
    (∃ res s2 ev,
      quaternion_algebra noneExpressQAOracles c8State none 1 = some (res, s2, ev) ∧
      Event.hilbertWords 1 10 ∈ ev) := by
  refine ⟨rfl, ?_, ?_⟩
  · exact (c10_algebra_resolvers_resolve_field_first.1 noneExpressQAOracles blankFail 1
      rfl rfl).1 rfl
  · refine ⟨_, _, _, rfl, ?_⟩
    exact (c10_algebra_resolvers_resolve_field_first.1 noneExpressQAOracles c8State 1
      rfl rfl).2 ⟨⟨7, 2, (0, 1)⟩, 5, [13, 14]⟩ _ _ _ rfl rfl

/-- C8 counterexample: a successful trace-field attempt on a
non-mod-2-homology-sphere with the invariant trace field unresolved writes
two attempt-record entries (one in the trace-field record and one in the
invariant-trace-field record), not exactly one. -/
theorem c8_counterexample :
    (trace_field c8State none none).2.1.tfRecord = [(⟨1000, 20⟩, true)] ∧
    (trace_field c8State none none).2.1.itfRecord = [(⟨1000, 20⟩, true)] ∧
    c8State.itfRecord = [] ∧
    (trace_field c8State none none).2.1.itfRecord ≠ c8State.itfRecord := by
  decide

end SnapPyNT
